import Mathlib

/-!
Verification of the ocipkg image-layout engine (termoshtt/ocipkg).

This development shallowly embeds the parts of the source that the spec's
quantified invariants talk about:

* `src/ocipkg/src/digest.rs` — `Digest`, `Digest::new`, `Digest::as_path`,
  `Digest::from_buf_sha256` (the `sha2` crate's SHA-256 is embedded as an
  executable FIPS 180-4 implementation over byte lists);
* `src/ocipkg/src/distribution/name.rs`, `reference.rs` — `Name::new`,
  `Reference::new`;
* `src/ocipkg/src/image_name.rs` — `ImageName`, `as_path`, `from_path`;
* `src/ocipkg/src/image/oci_archive.rs` — `OciArchiveBuilder`, `OciArchive`;
* `src/ocipkg/src/image/oci_dir.rs` — `OciDirBuilder` (with its `Drop` impl)
  and `OciDir`;
* `src/ocipkg/src/image/layout.rs` — `copy`, `get_name_from_index`;
* `src/ocipkg/src/local/mod.rs` — `image_dir`.

Modelling conventions: Rust strings are `List Char`; byte buffers are
`List Nat` (each element < 256); machine integers are `Nat`/`Int` with
explicit wrap-around where it matters; fallible Rust functions returning
`anyhow::Result` are modelled with `Option` (`none` collapses all error
values); the filesystem is an explicit record of directories and files
threaded through the stateful operations.
-/

set_option maxRecDepth 100000

/-- Bytes of an ASCII string (all strings handled by these components are
ASCII, so UTF-8 encoding is the identity on code points). -/
def strBytes (s : List Char) : List Nat :=
  s.map Char.toNat

/-- 2^32, the modulus of the 32-bit words used by SHA-256. -/
def M32 : Nat := 4294967296

/-- Addition of 32-bit words (`u32` wrap-around). -/
def add32 (a b : Nat) : Nat := (a + b) % M32

/-- Right rotation of a 32-bit word by `n` places. -/
def rotr32 (n x : Nat) : Nat := (x / 2 ^ n + x % 2 ^ n * 2 ^ (32 - n)) % M32

/-- Logical right shift of a 32-bit word. -/
def shr32 (n x : Nat) : Nat := x / 2 ^ n

/-- Bitwise complement of a 32-bit word (`2^32 - 1 - x` for `x < 2^32`). -/
def not32 (x : Nat) : Nat := M32 - 1 - x % M32

/-- SHA-256 `Ch` function (FIPS 180-4 §4.1.2). -/
def sha2Ch (x y z : Nat) : Nat := Nat.xor (Nat.land x y) (Nat.land (not32 x) z)

/-- SHA-256 `Maj` function. -/
def sha2Maj (x y z : Nat) : Nat :=
  Nat.xor (Nat.xor (Nat.land x y) (Nat.land x z)) (Nat.land y z)

/-- SHA-256 `Σ₀`. -/
def sha2S0 (x : Nat) : Nat := Nat.xor (Nat.xor (rotr32 2 x) (rotr32 13 x)) (rotr32 22 x)

/-- SHA-256 `Σ₁`. -/
def sha2S1 (x : Nat) : Nat := Nat.xor (Nat.xor (rotr32 6 x) (rotr32 11 x)) (rotr32 25 x)

/-- SHA-256 `σ₀`. -/
def sha2s0 (x : Nat) : Nat := Nat.xor (Nat.xor (rotr32 7 x) (rotr32 18 x)) (shr32 3 x)

/-- SHA-256 `σ₁`. -/
def sha2s1 (x : Nat) : Nat := Nat.xor (Nat.xor (rotr32 17 x) (rotr32 19 x)) (shr32 10 x)

/-- The 64 SHA-256 round constants `K` (FIPS 180-4 §4.2.2). -/
def sha2K : List Nat :=
  [1116352408, 1899447441, 3049323471, 3921009573, 961987163,
   1508970993, 2453635748, 2870763221, 3624381080, 310598401,
   607225278, 1426881987, 1925078388, 2162078206, 2614888103,
   3248222580, 3835390401, 4022224774, 264347078, 604807628,
   770255983, 1249150122, 1555081692, 1996064986, 2554220882,
   2821834349, 2952996808, 3210313671, 3336571891, 3584528711,
   113926993, 338241895, 666307205, 773529912, 1294757372,
   1396182291, 1695183700, 1986661051, 2177026350, 2456956037,
   2730485921, 2820302411, 3259730800, 3345764771, 3516065817,
   3600352804, 4094571909, 275423344, 430227734, 506948616,
   659060556, 883997877, 958139571, 1322822218, 1537002063,
   1747873779, 1955562222, 2024104815, 2227730452, 2361852424,
   2428436474, 2756734187, 3204031479, 3329325298]

/-- The SHA-256 initial hash value `H⁽⁰⁾`. -/
def sha2H0 : List Nat :=
  [1779033703, 3144134277, 1013904242, 2773480762,
   1359893119, 2600822924, 528734635, 1541459225]

/-- Big-endian bytes of a number, `k` bytes wide. -/
def beBytes : Nat → Nat → List Nat
  | 0, _ => []
  | k + 1, n => n / 2 ^ (8 * k) % 256 :: beBytes k n

/-- SHA-256 message padding: append `0x80`, zeros, and the 64-bit big-endian
bit length, reaching a multiple of 64 bytes. -/
def sha2Pad (msg : List Nat) : List Nat :=
  msg ++ 0x80 :: List.replicate ((64 - (msg.length + 9) % 64) % 64) 0
    ++ beBytes 8 (8 * msg.length)

/-- Split a byte list into successive blocks of 64 bytes; the fuel argument
is an upper bound on the number of blocks, making the recursion structural. -/
def chunksGo : Nat → List Nat → List (List Nat)
  | 0, _ => []
  | _, [] => []
  | fuel + 1, b :: rest => ((b :: rest).take 64) :: chunksGo fuel ((b :: rest).drop 64)

/-- Split a byte list into successive blocks of 64 bytes. -/
def chunks64 (l : List Nat) : List (List Nat) :=
  chunksGo l.length l

/-- Combine bytes into big-endian 32-bit words. -/
def words32 : List Nat → List Nat
  | b0 :: b1 :: b2 :: b3 :: rest =>
    (b0 * 2 ^ 24 + b1 * 2 ^ 16 + b2 * 2 ^ 8 + b3) :: words32 rest
  | _ => []

/-- One step of the SHA-256 message-schedule extension: append
`σ₁(W[t−2]) + W[t−7] + σ₀(W[t−15]) + W[t−16]`. -/
def schedStep (w : List Nat) : List Nat :=
  w ++ [add32 (add32 (sha2s1 (w.getD (w.length - 2) 0)) (w.getD (w.length - 7) 0))
          (add32 (sha2s0 (w.getD (w.length - 15) 0)) (w.getD (w.length - 16) 0))]

/-- Iterate the message-schedule extension. -/
def extendSched : Nat → List Nat → List Nat
  | 0, w => w
  | n + 1, w => extendSched n (schedStep w)

/-- The eight working variables of the SHA-256 compression function. -/
structure Sha2State where
  a : Nat
  b : Nat
  c : Nat
  d : Nat
  e : Nat
  f : Nat
  g : Nat
  h : Nat
deriving Repr, DecidableEq

/-- One SHA-256 compression round, consuming a pair `(Kₜ, Wₜ)`. -/
def sha2Round (s : Sha2State) (kw : Nat × Nat) : Sha2State :=
  let t1 := add32 s.h (add32 (sha2S1 s.e) (add32 (sha2Ch s.e s.f s.g) (add32 kw.1 kw.2)))
  let t2 := add32 (sha2S0 s.a) (sha2Maj s.a s.b s.c)
  { a := add32 t1 t2, b := s.a, c := s.b, d := s.c,
    e := add32 s.d t1, f := s.e, g := s.f, h := s.g }

/-- Process one padded 64-byte block, updating the intermediate hash. -/
def sha2Block (hv : List Nat) (block : List Nat) : List Nat :=
  let w := extendSched 48 (words32 block)
  let i := { a := hv.getD 0 0, b := hv.getD 1 0, c := hv.getD 2 0, d := hv.getD 3 0,
             e := hv.getD 4 0, f := hv.getD 5 0, g := hv.getD 6 0,
             h := hv.getD 7 0 : Sha2State }
  let s := (sha2K.zip w).foldl sha2Round i
  [add32 (hv.getD 0 0) s.a, add32 (hv.getD 1 0) s.b, add32 (hv.getD 2 0) s.c,
   add32 (hv.getD 3 0) s.d, add32 (hv.getD 4 0) s.e, add32 (hv.getD 5 0) s.f,
   add32 (hv.getD 6 0) s.g, add32 (hv.getD 7 0) s.h]

/-- SHA-256 of a byte sequence, as the list of 32 digest bytes.
Embeds `sha2::Sha256::digest` (an external crate; implemented here directly
from FIPS 180-4, which that crate realizes). -/
def sha256 (msg : List Nat) : List Nat :=
  ((chunks64 (sha2Pad msg)).foldl sha2Block sha2H0).foldr
    (fun w acc => beBytes 4 w ++ acc) []

/-- Lowercase hex digit for a value below 16. -/
def hexDigit (n : Nat) : Char :=
  if n < 10 then Char.ofNat (48 + n) else Char.ofNat (87 + n)

/-- Lowercase hex rendering of a byte list; embeds
`base16ct::lower::encode_string`. -/
def hexOfBytes (bs : List Nat) : List Char :=
  bs.foldr (fun b acc => hexDigit (b / 16) :: hexDigit (b % 16) :: acc) []

/-! ### Character classes and small string utilities -/

/-- `[a-z]`. -/
def isLower (c : Char) : Bool := 'a' ≤ c && c ≤ 'z'

/-- `[A-Z]`. -/
def isUpper (c : Char) : Bool := 'A' ≤ c && c ≤ 'Z'

/-- `[0-9]`. -/
def isDec (c : Char) : Bool := '0' ≤ c && c ≤ '9'

/-- `[a-zA-Z0-9]`. -/
def isAlnum (c : Char) : Bool := isLower c || isUpper c || isDec c

/-- `[a-z0-9]`. -/
def isLowerAlnum (c : Char) : Bool := isLower c || isDec c

/-- `[a-f0-9]` (lowercase hex). -/
def isLowerHex (c : Char) : Bool := ('a' ≤ c && c ≤ 'f') || isDec c

/-- Value of a decimal digit character. -/
def decDigitVal (c : Char) : Nat := c.toNat - 48

/-- Base-10 value of a digit string (big-endian fold). -/
def decVal (s : List Char) : Nat := s.foldl (fun a c => 10 * a + decDigitVal c) 0

/-- Decimal digits of `n` (big-endian, empty for `n = 0`); the fuel argument
keeps the recursion structural for kernel evaluation. -/
def natDecGo : Nat → Nat → List Char
  | 0, _ => []
  | fuel + 1, n =>
    if n = 0 then [] else natDecGo fuel (n / 10) ++ [Char.ofNat (48 + n % 10)]

/-- Decimal rendering of a natural number; embeds Rust's `format!("{}", n)`
on unsigned integers. -/
def natToDec (n : Nat) : List Char :=
  if n = 0 then ['0'] else natDecGo (n + 1) n

/-- Embeds Rust's `str::parse::<u16>`: an optional leading `+`, then one or
more decimal digits, value below `2^16`. -/
def parseU16 (s : List Char) : Option Nat :=
  let t := match s with
    | '+' :: rest => rest
    | _ => s
  if !t.isEmpty && t.all isDec then
    if decVal t < 65536 then some (decVal t) else none
  else none

/-- Does the list contain two adjacent underscores (the substring `__`)? -/
def hasUU : List Char → Bool
  | [] => false
  | c :: rest => (c == '_' && rest.head? == some '_') || hasUU rest

/-- Does the list contain the substring `_:`? -/
def hasUC : List Char → Bool
  | [] => false
  | c :: rest => (c == '_' && rest.head? == some ':') || hasUC rest

/-- Embeds Rust's `str::replace(':', "__")`: every colon becomes two
underscores. -/
def replaceColon : List Char → List Char
  | [] => []
  | c :: rest => if c = ':' then '_' :: '_' :: replaceColon rest else c :: replaceColon rest

/-- Embeds Rust's `str::replace("__", ":")`: non-overlapping occurrences of
`__`, scanned left to right, each become one colon. -/
def replaceUU : List Char → List Char
  | [] => []
  | [c] => [c]
  | c :: d :: rest =>
    if c = '_' ∧ d = '_' then ':' :: replaceUU rest
    else c :: replaceUU (d :: rest)

/-- Embeds Rust's `str::split("__")`: split on non-overlapping occurrences of
`__`, scanned left to right (empty pieces included). -/
def splitUU : List Char → List (List Char)
  | [] => [[]]
  | [c] => [[c]]
  | c :: d :: rest =>
    if c = '_' ∧ d = '_' then [] :: splitUU rest
    else
      match splitUU (d :: rest) with
      | g :: gs => (c :: g) :: gs
      | [] => [[c]]

/-! ### `Digest` (src/ocipkg/src/digest.rs) -/

/-- `Digest { algorithm, encoded }` from `digest.rs`. -/
structure DigestT where
  algorithm : List Char
  encoded : List Char
deriving DecidableEq, Repr

/-- `impl Display for Digest`: `"{algorithm}:{encoded}"`. -/
def DigestT.toStr (d : DigestT) : List Char :=
  d.algorithm ++ ':' :: d.encoded

/-- `Digest::as_path`: `"blobs/{algorithm}/{encoded}"`. -/
def DigestT.asPath (d : DigestT) : List Char :=
  "blobs/".data ++ d.algorithm ++ '/' :: d.encoded

/-- A character matched by the character class of `ENCODED_RE`, the regex
`[a-zA-Z0-9=_-]+` from `digest.rs`. -/
def isEncodedChar (c : Char) : Bool :=
  isAlnum c || c == '=' || c == '_' || c == '-'

/-- `Digest::new`: split the input on `:`; require exactly two pieces; accept
when `ENCODED_RE.is_match(encoded)` holds. `Regex::is_match` is substring
search, and the regex is unanchored, so it holds exactly when some character
of `encoded` lies in the class; the algorithm part is not checked at all
(the source carries a `FIXME: check algorithm part`). -/
def digestNew (input : List Char) : Option DigestT :=
  match input.splitOn ':' with
  | [algorithm, encoded] =>
    if encoded.any isEncodedChar then some ⟨algorithm, encoded⟩ else none
  | _ => none

/-- `Digest::from_buf_sha256`: SHA-256 of the buffer, lowercase hex encoded,
with algorithm `sha256`. -/
def digestFromBufSha256 (buf : List Nat) : DigestT :=
  ⟨"sha256".data, hexOfBytes (sha256 buf)⟩

/-- `Digest::from_descriptor`: parse the descriptor's digest string. -/
def digestFromStr (s : List Char) : Option DigestT :=
  digestNew s

/-! ### `Name` (src/ocipkg/src/distribution/name.rs) -/

/-- One step of matching the tail `((\.|_|__|-+)[a-z0-9]+)*` of a name
segment; fuel keeps the recursion structural. -/
def segTail : Nat → List Char → Bool
  | _, [] => true
  | 0, _ => false
  | fuel + 1, c :: rest =>
    let afterSep : Option (List Char) :=
      if c = '.' then some rest
      else if c = '_' then
        some (match rest with
              | '_' :: rest2 => rest2
              | _ => rest)
      else if c = '-' then some (rest.dropWhile (· = '-'))
      else none
    match afterSep with
    | none => false
    | some r => !(r.takeWhile isLowerAlnum).isEmpty && segTail fuel (r.dropWhile isLowerAlnum)

/-- Does a single path segment match
`[a-z0-9]+((\.|_|__|-+)[a-z0-9]+)*` in its entirety? -/
def segOk (s : List Char) : Bool :=
  !(s.takeWhile isLowerAlnum).isEmpty && segTail s.length (s.dropWhile isLowerAlnum)

/-- `Name::new`: accept exactly the strings matching `NAME_RE`, the anchored
regex `^[a-z0-9]+((\.|_|__|-+)[a-z0-9]+)*(\/[a-z0-9]+((\.|_|__|-+)[a-z0-9]+)*)*$`,
i.e. one or more `/`-separated segments each matching the segment grammar. -/
def nameNew (name : List Char) : Option (List Char) :=
  if (name.splitOn '/').all segOk then some name else none

/-! ### `Reference` (src/ocipkg/src/distribution/reference.rs) -/

/-- Does the string match `REF_RE`, the anchored tag regex
`^[a-zA-Z0-9_][a-zA-Z0-9._-]{0,127}$`? -/
def tagOk : List Char → Bool
  | [] => false
  | c :: rest =>
    (isAlnum c || c == '_') && rest.length ≤ 127
      && rest.all (fun d => isAlnum d || d == '.' || d == '_' || d == '-')

/-- A character of an algorithm component (`[a-z0-9]`) in the OCI digest
grammar. -/
def isAlgChar (c : Char) : Bool := isLowerAlnum c

/-- An algorithm separator (`[+._-]`) in the OCI digest grammar. -/
def isAlgSep (c : Char) : Bool := c == '+' || c == '.' || c == '_' || c == '-'

/-- No two adjacent separator characters. -/
def noAdjacentSeps : List Char → Bool
  | a :: b :: rest => !(isAlgSep a && isAlgSep b) && noAdjacentSeps (b :: rest)
  | _ => true

/-- Does the string match `algorithm-component (algorithm-separator
algorithm-component)*`? Equivalently: nonempty, drawn from the two character
classes, starting and ending with a component character, with no two adjacent
separators. -/
def algOk (s : List Char) : Bool :=
  !s.isEmpty && s.all (fun c => isAlgChar c || isAlgSep c)
    && (s.head?.getD ' ' |> isAlgChar) && (s.getLast?.getD ' ' |> isAlgChar)
    && noAdjacentSeps s

/-- Encoded-part check of the external `oci_spec::image::Digest` parser: the
registered algorithms `sha256`/`sha512` require exactly 64/128 lowercase hex
characters; other algorithms require a nonempty `[a-zA-Z0-9=_-]+` string. -/
def encOkFor (alg enc : List Char) : Bool :=
  if alg = "sha256".data then enc.length == 64 && enc.all isLowerHex
  else if alg = "sha512".data then enc.length == 128 && enc.all isLowerHex
  else !enc.isEmpty && enc.all isEncodedChar

/-- Model of `oci_spec::image::Digest::from_str` (external crate): the string
must be `<algorithm>:<encoded>` with a valid algorithm and a valid encoded
part for that algorithm. -/
def ociSpecDigestOk (s : List Char) : Bool :=
  match s.splitOn ':' with
  | [alg, enc] => algOk alg && encOkFor alg enc
  | _ => false

/-- `Reference::new`: accept a tag matching `REF_RE`; otherwise, when the
string contains a colon, accept exactly when it parses as an
`oci_spec::image::Digest`. -/
def referenceNew (name : List Char) : Option (List Char) :=
  if tagOk name then some name
  else if name.contains ':' then
    if ociSpecDigestOk name then some name else none
  else none

/-! ### `ImageName` (src/ocipkg/src/image_name.rs) -/

/-- `ImageName` from `image_name.rs`. The `name` and `reference` fields hold
the strings wrapped by `Name` and `Reference`; `port` is the parsed `u16`. -/
structure ImageNameT where
  hostname : List Char
  port : Option Nat
  name : List Char
  reference : List Char
deriving DecidableEq, Repr

/-- `impl Display for ImageName`:
`hostname[:port]/name:reference`. -/
def ImageNameT.toStr (n : ImageNameT) : List Char :=
  match n.port with
  | some p => n.hostname ++ ':' :: natToDec p ++ '/' :: n.name ++ ':' :: n.reference
  | none => n.hostname ++ '/' :: n.name ++ ':' :: n.reference

/-- `ImageName::as_path`: `{hostname}/{name}/__{reference}` or
`{hostname}__{port}/{name}/__{reference}`, with every `:` of the reference
replaced by `__`. -/
def ImageNameT.asPath (n : ImageNameT) : List Char :=
  match n.port with
  | some p =>
    n.hostname ++ '_' :: '_' :: natToDec p ++ '/' :: n.name
      ++ '/' :: '_' :: '_' :: replaceColon n.reference
  | none => n.hostname ++ '/' :: n.name ++ '/' :: '_' :: '_' :: replaceColon n.reference

/-- `ImageName::from_path`. `Path::components` is modelled as splitting on
`/`; on the paths produced by `as_path` (no empty, `.` or `..` components)
this agrees with Rust's component iterator. Mirrors the source: at least
three components; the first split on `__` into hostname and optional port;
the middle components re-joined with `/` as the name; the last stripped of
its `__` marker and `__`-to-`:` decoded as the reference. -/
def imageNameFromPath (path : List Char) : Option ImageNameT :=
  let components := path.splitOn '/'
  if components.length < 3 then none
  else
    match components with
    | [] => none
    | registry :: rest =>
      let pieces := splitUU registry
      match pieces.head? with
      | none => none
      | some hostname =>
        let port? : Option (Option Nat) :=
          match pieces.get? 1 with
          | none => some none
          | some p =>
            match parseU16 p with
            | some v => some (some v)
            | none => none
        match port? with
        | none => none
        | some port =>
          match nameNew (List.intercalate ['/'] rest.dropLast) with
          | none => none
          | some name =>
            match rest.getLast? with
            | none => none
            | some last =>
              match last with
              | '_' :: '_' :: tagPart =>
                match referenceNew (replaceUU tagPart) with
                | none => none
                | some reference => some ⟨hostname, port, name, reference⟩
              | _ => none

/-! ### JSON (model of `serde_json` on the `oci_spec` image types)

Rendering is defined directly per type, in the field order of the `oci_spec`
struct declarations (serde's derived serializer emits fields in declaration
order, compact, omitting `None` options). Parsing goes through a small
generic JSON parser; deserialization accepts fields in any order and ignores
unknown ones, as serde does for these types. -/

/-- The `\x7b` character. -/
def lbrace : Char := Char.ofNat 123

/-- The `\x7d` character. -/
def rbrace : Char := Char.ofNat 125

/-- JSON values as produced and consumed here (numbers are integers; the
image types carry no fractional numbers). -/
inductive Json where
  | null : Json
  | boolean : Bool → Json
  | num : Int → Json
  | str : List Char → Json
  | arr : List Json → Json
  | obj : List (List Char × Json) → Json
deriving Repr

/-- Decimal rendering of an integer. -/
def intToDec (i : Int) : List Char :=
  if i < 0 then '-' :: natToDec i.natAbs else natToDec i.natAbs

/-- JSON string literal: quote and escape `"` and `\` (the only characters
needing escapes in the data handled here). -/
def jstr (s : List Char) : List Char :=
  '"' :: s.foldr (fun c acc => if c = '"' ∨ c = '\\' then '\\' :: c :: acc else c :: acc) ['"']

/-- Join with commas. -/
def commaJoin : List (List Char) → List Char
  | [] => []
  | [x] => x
  | x :: y :: rest => x ++ ',' :: commaJoin (y :: rest)

/-- Render a JSON object from rendered fields. -/
def jobj (fields : List (List Char)) : List Char :=
  lbrace :: commaJoin fields ++ [rbrace]

/-- Render one object field. -/
def jfield (k : List Char) (v : List Char) : List Char :=
  jstr k ++ ':' :: v

/-- Scan a JSON string literal body up to its closing quote, resolving `\"`
and `\\` escapes; returns the content and the remaining input. -/
def scanJStr : List Char → Option (List Char × List Char)
  | [] => none
  | '"' :: rest => some ([], rest)
  | '\\' :: c :: rest =>
    if c = '"' ∨ c = '\\' then
      match scanJStr rest with
      | some (s, r) => some (c :: s, r)
      | none => none
    else none
  | c :: rest =>
    match scanJStr rest with
    | some (s, r) => some (c :: s, r)
    | none => none

/-- JSON whitespace. -/
def isJWs (c : Char) : Bool := c == ' ' || c == '\n' || c == '\t' || c == '\r'

/-- Parser modes: a value, the items of an array, or the fields of an
object (with the items accumulated so far). -/
inductive PMode where
  | val : PMode
  | arrItems : List Json → PMode
  | objItems : List (List Char × Json) → PMode

/-- Parse an integer literal from the head of the input. -/
def parseJNum (s : List Char) : Option (Json × List Char) :=
  let core : List Char → Option (Json × List Char) := fun t =>
    let ds := t.takeWhile isDec
    if ds.isEmpty then none
    else some (Json.num (decVal ds), t.dropWhile isDec)
  match s with
  | '-' :: rest =>
    match core rest with
    | some (Json.num v, r) => some (Json.num (-v), r)
    | _ => none
  | _ => core s

/-- The recursive JSON parser; fuel decreases on every recursive call, so the
recursion is structural and evaluates inside the kernel. -/
def parseGo : Nat → PMode → List Char → Option (Json × List Char)
  | 0, _, _ => none
  | fuel + 1, PMode.val, s =>
    match s.dropWhile isJWs with
    | [] => none
    | c :: rest =>
      if c = '"' then
        match scanJStr rest with
        | some (str, r) => some (Json.str str, r)
        | none => none
      else if c = lbrace then
        match rest.dropWhile isJWs with
        | d :: r2 => if d = rbrace then some (Json.obj [], r2)
                     else parseGo fuel (PMode.objItems []) (d :: r2)
        | [] => none
      else if c = '[' then
        match rest.dropWhile isJWs with
        | d :: r2 => if d = ']' then some (Json.arr [], r2)
                     else parseGo fuel (PMode.arrItems []) (d :: r2)
        | [] => none
      else if c = 't' then
        match rest with
        | 'r' :: 'u' :: 'e' :: r => some (Json.boolean true, r)
        | _ => none
      else if c = 'f' then
        match rest with
        | 'a' :: 'l' :: 's' :: 'e' :: r => some (Json.boolean false, r)
        | _ => none
      else if c = 'n' then
        match rest with
        | 'u' :: 'l' :: 'l' :: r => some (Json.null, r)
        | _ => none
      else parseJNum (c :: rest)
  | fuel + 1, PMode.arrItems acc, s =>
    match parseGo fuel PMode.val s with
    | none => none
    | some (v, r) =>
      match r.dropWhile isJWs with
      | ',' :: r2 => parseGo fuel (PMode.arrItems (acc ++ [v])) r2
      | ']' :: r2 => some (Json.arr (acc ++ [v]), r2)
      | _ => none
  | fuel + 1, PMode.objItems acc, s =>
    match s.dropWhile isJWs with
    | '"' :: rest =>
      match scanJStr rest with
      | none => none
      | some (k, r) =>
        match r.dropWhile isJWs with
        | ':' :: r2 =>
          match parseGo fuel PMode.val r2 with
          | none => none
          | some (v, r3) =>
            match r3.dropWhile isJWs with
            | ',' :: r4 => parseGo fuel (PMode.objItems (acc ++ [(k, v)])) r4
            | d :: r4 => if d = rbrace then some (Json.obj (acc ++ [(k, v)]), r4) else none
            | [] => none
        | _ => none
    | _ => none

/-- Parse a complete JSON document (with enough fuel for any input of this
length). -/
def parseJson (s : List Char) : Option Json :=
  match parseGo (2 * s.length + 8) PMode.val s with
  | some (v, r) => if (r.dropWhile isJWs).isEmpty then some v else none
  | none => none

/-- Field lookup in a parsed JSON object. -/
def objGet (fields : List (List Char × Json)) (key : List Char) : Option Json :=
  (fields.find? (fun kv => kv.1 = key)).map Prod.snd

/-! ### `oci_spec` image types (Descriptor, ImageManifest, ImageIndex) -/

/-- `oci_spec::image::Descriptor` restricted to the fields this repository
reads or writes (`urls`, `data`, `platform` and `subject` are never touched
and are omitted from the model). `size` is the `i64` byte count; `digest` is
the `<algorithm>:<encoded>` string; `annotations` is `None` or a list of
key/value pairs in serialization order. -/
structure DescriptorT where
  mediaType : List Char
  digest : List Char
  size : Int
  annotations : Option (List (List Char × List Char))
deriving DecidableEq, Repr

/-- `oci_spec::image::ImageManifest` restricted to the fields this repository
reads or writes. -/
structure ManifestT where
  schemaVersion : Nat
  mediaType : Option (List Char)
  artifactType : Option (List Char)
  config : DescriptorT
  layers : List DescriptorT
  annotations : Option (List (List Char × List Char))
deriving DecidableEq, Repr

/-- `oci_spec::image::ImageIndex` restricted to the fields this repository
reads or writes. -/
structure IndexT where
  schemaVersion : Nat
  manifests : List DescriptorT
deriving DecidableEq, Repr

/-- The `MediaType::ImageManifest` string. -/
def mediaTypeImageManifest : List Char :=
  "application/vnd.oci.image.manifest.v1+json".data

/-- The `org.opencontainers.image.ref.name` annotation key. -/
def refNameKey : List Char :=
  "org.opencontainers.image.ref.name".data

/-- Render an annotation map (single-entry maps, the only ones this
repository creates, serialize deterministically). -/
def renderAnnotations (as : List (List Char × List Char)) : List Char :=
  jobj (as.map (fun kv => jfield kv.1 (jstr kv.2)))

/-- Serde rendering of a `Descriptor`. -/
def renderDescriptor (d : DescriptorT) : List Char :=
  jobj ([jfield "mediaType".data (jstr d.mediaType),
         jfield "digest".data (jstr d.digest),
         jfield "size".data (intToDec d.size)]
    ++ (match d.annotations with
        | none => []
        | some as => [jfield "annotations".data (renderAnnotations as)]))

/-- Serde rendering of an `ImageManifest`
(`serde_json::to_string(&manifest)`). -/
def renderManifest (m : ManifestT) : List Char :=
  jobj ([jfield "schemaVersion".data (natToDec m.schemaVersion)]
    ++ (match m.mediaType with
        | none => []
        | some mt => [jfield "mediaType".data (jstr mt)])
    ++ (match m.artifactType with
        | none => []
        | some a => [jfield "artifactType".data (jstr a)])
    ++ [jfield "config".data (renderDescriptor m.config),
        jfield "layers".data ('[' :: commaJoin (m.layers.map renderDescriptor) ++ [']'])]
    ++ (match m.annotations with
        | none => []
        | some as => [jfield "annotations".data (renderAnnotations as)]))

/-- Serde rendering of an `ImageIndex` (`serde_json::to_string(&index)`). -/
def renderIndex (i : IndexT) : List Char :=
  jobj [jfield "schemaVersion".data (natToDec i.schemaVersion),
        jfield "manifests".data ('[' :: commaJoin (i.manifests.map renderDescriptor) ++ [']'])]

/-- Read a JSON string value. -/
def jsonStr? : Option Json → Option (List Char)
  | some (Json.str s) => some s
  | _ => none

/-- Read a JSON integer value. -/
def jsonNum? : Option Json → Option Int
  | some (Json.num n) => some n
  | _ => none

/-- Read an annotation map from JSON. -/
def jsonAnnotations? : Json → Option (List (List Char × List Char))
  | Json.obj fields =>
    fields.foldr
      (fun kv acc =>
        match kv.2, acc with
        | Json.str v, some r => some ((kv.1, v) :: r)
        | _, _ => none)
      (some [])
  | _ => none

/-- Deserialize a `Descriptor` from JSON: `mediaType`, `digest` and `size`
are required, the digest string must parse as an `oci_spec` digest,
`annotations` is optional, unknown fields are ignored. -/
def jsonToDescriptor : Json → Option DescriptorT
  | Json.obj fields =>
    match jsonStr? (objGet fields "mediaType".data),
          jsonStr? (objGet fields "digest".data),
          jsonNum? (objGet fields "size".data) with
    | some mt, some dg, some sz =>
      if ociSpecDigestOk dg then
        match objGet fields "annotations".data with
        | none => some ⟨mt, dg, sz, none⟩
        | some a =>
          match jsonAnnotations? a with
          | some as => some ⟨mt, dg, sz, some as⟩
          | none => none
      else none
    | _, _, _ => none
  | _ => none

/-- Deserialize a list of descriptors. -/
def jsonToDescriptors : List Json → Option (List DescriptorT)
  | [] => some []
  | j :: rest =>
    match jsonToDescriptor j, jsonToDescriptors rest with
    | some d, some ds => some (d :: ds)
    | _, _ => none

/-- Deserialize an `ImageManifest` from JSON
(`serde_json::from_slice::<ImageManifest>`). -/
def jsonToManifest : Json → Option ManifestT
  | Json.obj fields =>
    match jsonNum? (objGet fields "schemaVersion".data),
          (objGet fields "config".data).bind jsonToDescriptor with
    | some sv, some cfg =>
      if sv < 0 then none
      else
        match objGet fields "layers".data with
        | some (Json.arr ls) =>
          match jsonToDescriptors ls with
          | none => none
          | some layers =>
            let mt := jsonStr? (objGet fields "mediaType".data)
            let artT := jsonStr? (objGet fields "artifactType".data)
            match objGet fields "annotations".data with
            | none => some ⟨sv.toNat, mt, artT, cfg, layers, none⟩
            | some a =>
              match jsonAnnotations? a with
              | some as => some ⟨sv.toNat, mt, artT, cfg, layers, some as⟩
              | none => none
        | _ => none
    | _, _ => none
  | _ => none

/-- Deserialize an `ImageIndex` from JSON
(`serde_json::from_str::<ImageIndex>`). -/
def jsonToIndex : Json → Option IndexT
  | Json.obj fields =>
    match jsonNum? (objGet fields "schemaVersion".data),
          objGet fields "manifests".data with
    | some sv, some (Json.arr ms) =>
      if sv < 0 then none
      else
        match jsonToDescriptors ms with
        | some ds => some ⟨sv.toNat, ds⟩
        | none => none
    | _, _ => none
  | _ => none

/-- Parse manifest bytes (`serde_json::from_slice` after reading a blob).
Bytes outside the ASCII range make the input non-UTF-8 here. -/
def parseManifestBytes (bs : List Nat) : Option ManifestT :=
  if bs.all (· < 128) then
    (parseJson (bs.map Char.ofNat)).bind jsonToManifest
  else none

/-- Parse index bytes. -/
def parseIndexBytes (bs : List Nat) : Option IndexT :=
  if bs.all (· < 128) then
    (parseJson (bs.map Char.ofNat)).bind jsonToIndex
  else none

/-- The literal `oci-layout` file contents written by this repository. -/
def ociLayoutContents : List Char :=
  "\x7b\"imageLayoutVersion\":\"1.0.0\"\x7d".data

/-- Deserialize an `OciLayout` and return its `imageLayoutVersion`. -/
def parseOciLayoutVersion (bs : List Nat) : Option (List Char) :=
  if bs.all (· < 128) then
    match parseJson (bs.map Char.ofNat) with
    | some (Json.obj fields) => jsonStr? (objGet fields "imageLayoutVersion".data)
    | _ => none
  else none

/-! ### Filesystem model

Directories and files keyed by full path strings. `create_dir_all` records
only the directory it is given (intermediate parents play no role in the
claims); `remove_dir_all` removes the directory and every path below it;
writing a file overwrites any previous content at that path. -/

/-- The filesystem state threaded through the `oci-dir` operations. -/
structure FS where
  dirs : List (List Char)
  files : List (List Char × List Nat)
deriving DecidableEq, Repr

/-- `Path::exists`: a directory or file lives at this path. -/
def FS.existsPath (fs : FS) (p : List Char) : Bool :=
  fs.dirs.contains p || fs.files.any (fun e => e.1 == p)

/-- `fs::write` (truncating write: replaces previous content). -/
def FS.writeFile (fs : FS) (p : List Char) (c : List Nat) : FS :=
  { fs with files := (p, c) :: fs.files.filter (fun e => e.1 != p) }

/-- `fs::read`. -/
def FS.readFile (fs : FS) (p : List Char) : Option (List Nat) :=
  (fs.files.find? (fun e => e.1 == p)).map Prod.snd

/-- `fs::create_dir_all`. -/
def FS.createDirAll (fs : FS) (p : List Char) : FS :=
  { fs with dirs := p :: fs.dirs }

/-- Is `p` the path `root` itself or strictly below it? -/
def pathUnder (root p : List Char) : Bool :=
  p == root || (root ++ ['/']).isPrefixOf p

/-- `fs::remove_dir_all`: drop the directory and everything below it. -/
def FS.removeDirAll (fs : FS) (root : List Char) : FS :=
  { dirs := fs.dirs.filter (fun d => !pathUnder root d),
    files := fs.files.filter (fun e => !pathUnder root e.1) }

/-- `PathBuf::join` with a relative right-hand side. -/
def pjoin (a b : List Char) : List Char := a ++ '/' :: b

/-! ### `ImageName::parse` (FromStr in image_name.rs) -/

/-- Rust's `str::split_once`: split at the first occurrence of `c`. -/
def splitOnce (c : Char) : List Char → Option (List Char × List Char)
  | [] => none
  | d :: rest =>
    if d = c then some ([], rest)
    else (splitOnce c rest).map (fun p => (d :: p.1, p.2))

/-- `ImageName::parse`: first `/` separates the hostname (default
`registry-1.docker.io`); a `:` in the hostname part carries the port; the
last `:` split of the remainder carries the reference (default `latest`). -/
def imageNameParse (s : List Char) : Option ImageNameT :=
  let (hostname0, rest) := (splitOnce '/' s).getD ("registry-1.docker.io".data, s)
  let hp? : Option (List Char × Option Nat) :=
    match splitOnce ':' hostname0 with
    | some (h, p) => (parseU16 p).map (fun v => (h, some v))
    | none => some (hostname0, none)
  match hp? with
  | none => none
  | some (hostname, port) =>
    let (nm, reference) := (splitOnce ':' rest).getD (rest, "latest".data)
    match nameNew nm, referenceNew reference with
    | some nm, some r => some ⟨hostname, port, nm, r⟩
    | _, _ => none

/-! ### `get_name_from_index` (src/ocipkg/src/image/layout.rs) -/

/-- `get_name_from_index`: error unless the index holds exactly one manifest;
then read the `org.opencontainers.image.ref.name` annotation and parse it. -/
def getNameFromIndex (index : IndexT) : Option ImageNameT :=
  if index.manifests.length ≠ 1 then none
  else
    match index.manifests.head? with
    | none => none
    | some manifest =>
      match manifest.annotations.bind
          (fun as => (as.find? (fun kv => kv.1 == refNameKey)).map Prod.snd) with
      | none => none
      | some name => imageNameParse name

/-! ### `OciDirBuilder` and `OciDir` (src/ocipkg/src/image/oci_dir.rs) -/

/-- `OciDirBuilder`: the target root, the optional image name, and the
`is_finished` flag consulted by the `Drop` impl. -/
structure OciDirBuilderT where
  imageName : Option ImageNameT
  ociDirRoot : List Char
  isFinished : Bool
deriving DecidableEq, Repr

/-- `OciDirBuilder::new`: fail if the path exists, otherwise create the
directory; on failure the filesystem is returned untouched. -/
def ociDirBuilderNew (root : List Char) (name : ImageNameT) (fs : FS) :
    Option OciDirBuilderT × FS :=
  if fs.existsPath root then (none, fs)
  else (some ⟨some name, root, false⟩, fs.createDirAll root)

/-- `OciDirBuilder::new_unnamed`: as `new` but without an image name. -/
def ociDirBuilderNewUnnamed (root : List Char) (fs : FS) :
    Option OciDirBuilderT × FS :=
  if fs.existsPath root then (none, fs)
  else (some ⟨none, root, false⟩, fs.createDirAll root)

/-- `<OciDirBuilder as ImageBuilder>::add_blob`: SHA-256 the data, create the
blob parent directory, write `root/blobs/<alg>/<enc>`, and return the digest
with the byte length. -/
def ociDirAddBlob (b : OciDirBuilderT) (fs : FS) (data : List Nat) :
    FS × DigestT × Int :=
  let digest := digestFromBufSha256 data
  let fs := fs.createDirAll (pjoin b.ociDirRoot ("blobs/".data ++ digest.algorithm))
  (fs.writeFile (pjoin b.ociDirRoot digest.asPath) data, digest, data.length)

/-- `<OciDirBuilder as ImageBuilder>::build`: store the serialized manifest
as a blob, build its descriptor (ref-name annotation when named, empty map
otherwise), write `oci-layout` and `index.json`, and mark the builder
finished. The model is total where the source can only fail on I/O or
serializer errors. -/
def ociDirBuild (b : OciDirBuilderT) (fs : FS) (manifest : ManifestT) :
    OciDirBuilderT × FS × (List Char) :=
  let manifestJson := renderManifest manifest
  let (fs, digest, size) := ociDirAddBlob b fs (strBytes manifestJson)
  let descriptor : DescriptorT :=
    ⟨mediaTypeImageManifest, digest.toStr, size,
     some (match b.imageName with
           | some name => [(refNameKey, name.toStr)]
           | none => [])⟩
  let index : IndexT := ⟨2, [descriptor]⟩
  let fs := fs.writeFile (pjoin b.ociDirRoot "oci-layout".data) (strBytes ociLayoutContents)
  let fs := fs.writeFile (pjoin b.ociDirRoot "index.json".data)
    (strBytes (renderIndex index))
  ({ b with isFinished := true }, fs, b.ociDirRoot)

/-- `impl Drop for OciDirBuilder`: remove the whole directory unless `build`
completed (`remove_dir_all` failures are logged and swallowed in the source;
the model lets removal succeed). -/
def ociDirBuilderDrop (b : OciDirBuilderT) (fs : FS) : FS :=
  if !b.isFinished then fs.removeDirAll b.ociDirRoot else fs

/-- `OciDir` reader handle. -/
structure OciDirT where
  ociDirRoot : List Char
deriving DecidableEq, Repr

/-- `OciDir::new`: the path must be a directory holding an `oci-layout` file
that parses and reports version `1.0.0`. -/
def ociDirNew (root : List Char) (fs : FS) : Option OciDirT :=
  if !fs.dirs.contains root then none
  else
    match (fs.readFile (pjoin root "oci-layout".data)).bind parseOciLayoutVersion with
    | none => none
    | some v => if v = "1.0.0".data then some ⟨root⟩ else none

/-- `OciDir::get_index`: read and parse `index.json`. -/
def ociDirGetIndex (d : OciDirT) (fs : FS) : Option IndexT :=
  (fs.readFile (pjoin d.ociDirRoot "index.json".data)).bind parseIndexBytes

/-- `<OciDir as Image>::get_name`. -/
def ociDirGetName (d : OciDirT) (fs : FS) : Option ImageNameT :=
  (ociDirGetIndex d fs).bind getNameFromIndex

/-- `<OciDir as Image>::get_blob`: one file read at `blobs/<alg>/<enc>`. -/
def ociDirGetBlob (d : OciDirT) (fs : FS) (digest : DigestT) : Option (List Nat) :=
  fs.readFile (pjoin d.ociDirRoot digest.asPath)

/-- `<OciDir as Image>::get_manifest`: take the FIRST descriptor of the index
(no count check), parse its digest, fetch the blob, deserialize. -/
def ociDirGetManifest (d : OciDirT) (fs : FS) : Option ManifestT :=
  match ociDirGetIndex d fs with
  | none => none
  | some index =>
    match index.manifests.head? with
    | none => none
    | some desc =>
      match digestNew desc.digest with
      | none => none
      | some digest => (ociDirGetBlob d fs digest).bind parseManifestBytes

/-! ### `OciArchiveBuilder` and `OciArchive` (src/ocipkg/src/image/oci_archive.rs) -/

/-- `OciArchiveBuilder`: the image name, the target path, and the tar entries
written so far (path plus content, in append order; tar headers carry no
information the claims depend on). -/
structure OciArchiveBuilderT where
  imageName : ImageNameT
  path : List Char
  entries : List (List Char × List Nat)
deriving DecidableEq, Repr

/-- `OciArchiveBuilder::new`: fail if the path exists, otherwise
`File::create` an empty file there; on failure the filesystem is returned
untouched. -/
def ociArchiveBuilderNew (path : List Char) (imageName : ImageNameT) (fs : FS) :
    Option OciArchiveBuilderT × FS :=
  if fs.existsPath path then (none, fs)
  else (some ⟨imageName, path, []⟩, fs.writeFile path [])

/-- `<OciArchiveBuilder as ImageBuilder>::add_blob`: SHA-256 the blob, append
a tar entry at `blobs/<alg>/<enc>`, return digest and byte length. -/
def ociArchiveAddBlob (b : OciArchiveBuilderT) (blob : List Nat) :
    OciArchiveBuilderT × DigestT × Int :=
  let digest := digestFromBufSha256 blob
  ({ b with entries := b.entries ++ [(digest.asPath, blob)] }, digest, blob.length)

/-- `OciArchive` reader: the tar entries and the current stream position
(`entries_with_seek` iterates from the position; `rewind` resets it). -/
structure OciArchiveT where
  entries : List (List Char × List Nat)
  pos : Nat
deriving DecidableEq, Repr

/-- `<OciArchiveBuilder as ImageBuilder>::build`: serialize the manifest and
append it as a blob entry, append `index.json` whose single descriptor
carries the ref-name annotation, finish the tar, and reopen it as an
`OciArchive`. No other entry is appended. -/
def ociArchiveBuild (b : OciArchiveBuilderT) (manifest : ManifestT) : OciArchiveT :=
  let manifestJson := renderManifest manifest
  let (b, digest, size) := ociArchiveAddBlob b (strBytes manifestJson)
  let descriptor : DescriptorT :=
    ⟨mediaTypeImageManifest, digest.toStr, size, some [(refNameKey, b.imageName.toStr)]⟩
  let index : IndexT := ⟨2, [descriptor]⟩
  ⟨b.entries ++ [("index.json".data, strBytes (renderIndex index))], 0⟩

/-- `OciArchive::rewind`: seek the underlying file back to offset 0 and wrap
it in a fresh `tar::Archive`. -/
def ociArchiveRewind (a : OciArchiveT) : OciArchiveT :=
  { a with pos := 0 }

/-- `OciArchive::get_entries`: rewind first, then iterate every entry from
the start of the archive (consuming the stream). -/
def ociArchiveGetEntries (a : OciArchiveT) :
    OciArchiveT × List (List Char × List Nat) :=
  let a1 := ociArchiveRewind a
  ({ a1 with pos := a1.entries.length }, a1.entries.drop a1.pos)

/-- `OciArchive::get_index`: scan for the `index.json` entry and parse it. -/
def ociArchiveGetIndex (a : OciArchiveT) : OciArchiveT × Option IndexT :=
  let (a1, es) := ociArchiveGetEntries a
  (a1, (es.find? (fun e => e.1 == "index.json".data)).bind (fun e => parseIndexBytes e.2))

/-- `<OciArchive as Image>::get_name`. -/
def ociArchiveGetName (a : OciArchiveT) : OciArchiveT × Option ImageNameT :=
  let (a1, idx?) := ociArchiveGetIndex a
  (a1, idx?.bind getNameFromIndex)

/-- `<OciArchive as Image>::get_blob`: rewind-and-scan; return the content of
the first entry whose path is `blobs/<alg>/<enc>` of the digest, or a
missing-blob error at end of archive. -/
def ociArchiveGetBlob (a : OciArchiveT) (digest : DigestT) :
    OciArchiveT × Option (List Nat) :=
  let (a1, es) := ociArchiveGetEntries a
  (a1, (es.find? (fun e => e.1 == digest.asPath)).map Prod.snd)

/-- `<OciArchive as Image>::get_manifest`: take the FIRST descriptor of the
index (no count check), parse its digest, scan for the blob, deserialize. -/
def ociArchiveGetManifest (a : OciArchiveT) : OciArchiveT × Option ManifestT :=
  match ociArchiveGetIndex a with
  | (a1, none) => (a1, none)
  | (a1, some index) =>
    match index.manifests.head? with
    | none => (a1, none)
    | some desc =>
      match digestNew desc.digest with
      | none => (a1, none)
      | some digest =>
        let (a2, blob?) := ociArchiveGetBlob a1 digest
        (a2, blob?.bind parseManifestBytes)

/-! ### `copy` (src/ocipkg/src/image/layout.rs) -/

/-- A source `Image` for `copy`, by its observable behavior: the results of
`get_name`, `get_manifest`, and `get_blob` keyed by digest string. -/
structure SourceImage where
  name : Option ImageNameT
  manifest : Option ManifestT
  blobs : List (List Char × List Nat)
deriving DecidableEq, Repr

/-- `from.get_blob(digest)` on a `SourceImage`. -/
def sourceGetBlob (src : SourceImage) (digest : List Char) : Option (List Nat) :=
  (src.blobs.find? (fun e => e.1 == digest)).map Prod.snd

/-- A destination `ImageBuilder` for `copy`, by its two operations (both
backends' operations are total in this model). -/
structure BuilderOps (β : Type) (ι : Type) where
  addBlob : β → List Nat → β × DigestT × Int
  build : β → ManifestT → β × ι

/-- The `OciDirBuilder` instance of `BuilderOps` (state: builder plus
filesystem). -/
def ociDirOps : BuilderOps (OciDirBuilderT × FS) OciDirT :=
  { addBlob := fun s data =>
      let (fs, d, sz) := ociDirAddBlob s.1 s.2 data
      ((s.1, fs), d, sz),
    build := fun s m =>
      let (b, fs, root) := ociDirBuild s.1 s.2 m
      ((b, fs), ⟨root⟩) }

/-- The `OciArchiveBuilder` instance of `BuilderOps`. -/
def ociArchiveOps : BuilderOps OciArchiveBuilderT OciArchiveT :=
  { addBlob := ociArchiveAddBlob,
    build := fun b m => (b, ociArchiveBuild b m) }

/-- The layer loop of `copy`: fetch each layer blob in manifest order,
re-add it to the destination, and stop with an error if the recomputed
digest or the size disagrees with the descriptor. Returns the digests
fetched (in order) and the builder when all layers passed. -/
def copyLayers {β ι : Type} (ops : BuilderOps β ι) (src : SourceImage) :
    List DescriptorT → β → List (List Char) × Option β
  | [], b => ([], some b)
  | layer :: rest, b =>
    match sourceGetBlob src layer.digest with
    | none => ([], none)
    | some blob =>
      let (b1, dNew, size) := ops.addBlob b blob
      if dNew.toStr ≠ layer.digest then ([layer.digest], none)
      else if size ≠ layer.size then ([layer.digest], none)
      else
        let (tr, r) := copyLayers ops src rest b1
        (layer.digest :: tr, r)

/-- The observable outcome of `copy`: the digests fetched from the source in
order, and on success the final builder state, the built image, and the
manifest handed to `build`. `result = none` means `copy` failed before
calling `build`. -/
structure CopyOut (β ι : Type) where
  fetched : List (List Char)
  result : Option (β × ι × ManifestT)

/-- `copy(from, to)` from layout.rs: `get_name`, `get_manifest`, the layer
loop, the same fetch-re-add-check step for the config blob, then
`to.build(manifest)` with the manifest unchanged. -/
def copyRun {β ι : Type} (ops : BuilderOps β ι) (src : SourceImage) (dest : β) :
    CopyOut β ι :=
  match src.name with
  | none => ⟨[], none⟩
  | some _ =>
    match src.manifest with
    | none => ⟨[], none⟩
    | some m =>
      match copyLayers ops src m.layers dest with
      | (tr, none) => ⟨tr, none⟩
      | (tr, some b) =>
        match sourceGetBlob src m.config.digest with
        | none => ⟨tr, none⟩
        | some blob =>
          let (b1, dNew, size) := ops.addBlob b blob
          if dNew.toStr ≠ m.config.digest then ⟨tr ++ [m.config.digest], none⟩
          else if size ≠ m.config.size then ⟨tr ++ [m.config.digest], none⟩
          else
            let (b2, img) := ops.build b1 m
            ⟨tr ++ [m.config.digest], some (b2, img, m)⟩

/-! ### `image_dir` (src/ocipkg/src/local/mod.rs) -/

/-- `image_dir(name)`: the store base directory joined with
`{hostname}[__{port}]/{name}/__{reference}` — note the reference is used
verbatim (its `:` is NOT replaced, unlike `ImageName::as_path`). The base
directory resolved from XDG conventions is a parameter here. -/
def imageDir (base : List Char) (name : ImageNameT) : List Char :=
  match name.port with
  | some p =>
    pjoin base (name.hostname ++ '_' :: '_' :: natToDec p
      ++ '/' :: name.name ++ '/' :: '_' :: '_' :: name.reference)
  | none =>
    pjoin base (name.hostname ++ '/' :: name.name ++ '/' :: '_' :: '_' :: name.reference)

/-! ### Theorems -/

/-- `replaceColon` is the identity on colon-free strings. -/
theorem replaceColon_of_no_colon (r : List Char) (h : r.contains ':' = false) :
    replaceColon r = r := by
  induction r with
  | nil => rfl
  | cons c rest ih =>
    simp only [List.contains_cons, Bool.or_eq_false_iff, beq_eq_false_iff_ne] at h
    have hc : ¬ c = ':' := fun hx => h.1 hx.symm
    simp [replaceColon, hc, ih h.2]

/-- `replaceColon` moves every string containing a colon. -/
theorem replaceColon_ne_of_colon (r : List Char) (h : r.contains ':' = true) :
    replaceColon r ≠ r := by
  induction r with
  | nil => simp [List.contains] at h
  | cons c rest ih =>
    by_cases hc : c = ':'
    · subst hc
      simp [replaceColon]
    · simp only [List.contains_cons, Bool.or_eq_true, beq_iff_eq] at h
      rcases h with h | h
    
      · exact absurd h.symm hc
      · simp only [replaceColon, if_neg hc, ne_eq, List.cons.injEq, not_and]
        intro _
        exact ih h

/-- C8: `OciArchive::get_blob` first rewinds the archive to offset 0 and
scans a fresh entry iterator, so its result is independent of the current
stream position; it returns the content of the first entry whose path is
`blobs/<algorithm>/<encoded>` of the digest, and a missing-blob error when
no entry matches before the end of the archive. -/
theorem C8_get_blob_rewind_scan (entries : List (List Char × List Nat))
    (pos : Nat) (d : DigestT) :
    (ociArchiveGetBlob ⟨entries, pos⟩ d).2 = (ociArchiveGetBlob ⟨entries, 0⟩ d).2
    ∧ (ociArchiveGetBlob ⟨entries, pos⟩ d).2
        = (entries.find? (fun e => e.1 == d.asPath)).map Prod.snd
    ∧ (ociArchiveGetBlob ⟨entries, pos⟩ d).1.pos = entries.length
    ∧ ((∀ e ∈ entries, e.1 ≠ d.asPath) →
        (ociArchiveGetBlob ⟨entries, pos⟩ d).2 = none) := by
  refine ⟨rfl, rfl, rfl, fun h => ?_⟩
  simp only [ociArchiveGetBlob, ociArchiveGetEntries, ociArchiveRewind,
    List.drop_zero, Option.map_eq_none']
  exact List.find?_eq_none.mpr (fun e he => by simpa using h e he)

/-- C8 witness: a concrete two-entry archive read from a nonzero position. -/
theorem C8_get_blob_rewind_scan_witness :
    (ociArchiveGetBlob ⟨[("blobs/sha256/aa".data, [1]), ("blobs/sha256/bb".data, [2])], 2⟩
        ⟨"sha256".data, "bb".data⟩).2 = some [2]
    ∧ (∀ e ∈ [("blobs/sha256/aa".data, [1])], e.1 ≠ (⟨"sha256".data, "cc".data⟩ : DigestT).asPath)
    ∧ (ociArchiveGetBlob ⟨[("blobs/sha256/aa".data, [1])], 1⟩ ⟨"sha256".data, "cc".data⟩).2 = none := by
  refine ⟨?_, ?_, ?_⟩
  · have h := (C8_get_blob_rewind_scan
      [("blobs/sha256/aa".data, [1]), ("blobs/sha256/bb".data, [2])] 2
      ⟨"sha256".data, "bb".data⟩).2.1
    rw [h]
    decide
  · decide
  · exact (C8_get_blob_rewind_scan [("blobs/sha256/aa".data, [1])] 1
      ⟨"sha256".data, "cc".data⟩).2.2.2 (by decide)

/-- C10: every builder constructor (`OciArchiveBuilder::new`,
`OciDirBuilder::new`, `OciDirBuilder::new_unnamed`) fails on a path that
already exists, leaving the filesystem untouched, and a builder is only
handed out when the path did not exist before. -/
theorem C10_builder_new_requires_fresh_path (p : List Char) (nm : ImageNameT)
    (fs : FS) :
    (fs.existsPath p = true →
      ociArchiveBuilderNew p nm fs = (none, fs)
      ∧ ociDirBuilderNew p nm fs = (none, fs)
      ∧ ociDirBuilderNewUnnamed p fs = (none, fs))
    ∧ (((ociArchiveBuilderNew p nm fs).1.isSome
        ∨ (ociDirBuilderNew p nm fs).1.isSome
        ∨ (ociDirBuilderNewUnnamed p fs).1.isSome) →
        fs.existsPath p = false) := by
  constructor
  · intro h
    simp [ociArchiveBuilderNew, ociDirBuilderNew, ociDirBuilderNewUnnamed, h]
  · intro h
    by_cases he : fs.existsPath p = true
    · simp [ociArchiveBuilderNew, ociDirBuilderNew, ociDirBuilderNewUnnamed, he] at h
    · simpa using he

/-- C10 witness: a filesystem holding one file and one directory. -/
theorem C10_builder_new_requires_fresh_path_witness :
    ((⟨["d".data], [("f".data, [0])]⟩ : FS).existsPath "f".data = true
      ∧ ociArchiveBuilderNew "f".data ⟨"h".data, none, "n".data, "t".data⟩
          ⟨["d".data], [("f".data, [0])]⟩ = (none, ⟨["d".data], [("f".data, [0])]⟩))
    ∧ ((⟨["d".data], [("f".data, [0])]⟩ : FS).existsPath "d".data = true
      ∧ ociDirBuilderNew "d".data ⟨"h".data, none, "n".data, "t".data⟩
          ⟨["d".data], [("f".data, [0])]⟩ = (none, ⟨["d".data], [("f".data, [0])]⟩)) := by
  constructor
  · exact ⟨by decide,
      ((C10_builder_new_requires_fresh_path "f".data ⟨"h".data, none, "n".data, "t".data⟩
        ⟨["d".data], [("f".data, [0])]⟩).1 (by decide)).1⟩
  · exact ⟨by decide,
      ((C10_builder_new_requires_fresh_path "d".data ⟨"h".data, none, "n".data, "t".data⟩
        ⟨["d".data], [("f".data, [0])]⟩).1 (by decide)).2.1⟩

/-- Cancellation of a shared prefix ending in a fixed character. -/
theorem append_cons_inj (a : List Char) (c : Char) (x y : List Char) :
    a ++ c :: x = a ++ c :: y ↔ x = y := by
  simp

/-- C7 (amended): `image_dir(name)` is the base directory joined with
`<host>[__<port>]/<name>/__<reference>` with the reference taken verbatim;
it agrees with `base/<name.as_path()>` exactly when the reference contains
no `:` — for a digest-typed reference the two differ, because `as_path`
replaces `:` with `__` and `image_dir` does not. -/
theorem C7_image_dir_verbatim_reference (base : List Char) (n : ImageNameT) :
    imageDir base n = pjoin base n.asPath ↔ n.reference.contains ':' = false := by
  have core : n.reference = replaceColon n.reference ↔ n.reference.contains ':' = false := by
    constructor
    · intro h
      by_contra hc
      exact replaceColon_ne_of_colon _ (by simpa using hc) h.symm
    · intro h
      exact (replaceColon_of_no_colon _ h).symm
  cases hp : n.port with
  | none =>
    simp only [imageDir, ImageNameT.asPath, pjoin, hp, append_cons_inj,
      List.cons.injEq, true_and]
    simpa using core
  | some p =>
    simp only [imageDir, ImageNameT.asPath, pjoin, hp, append_cons_inj,
      List.cons.injEq, true_and]
    simpa using core

/-- C7 witness: for a tag reference the two paths agree; the amended theorem
applied at `localhost:5000/test_repo:latest`. -/
theorem C7_image_dir_verbatim_reference_witness :
    imageDir "base".data ⟨"localhost".data, some 5000, "test_repo".data, "latest".data⟩
      = pjoin "base".data
          (ImageNameT.asPath ⟨"localhost".data, some 5000, "test_repo".data, "latest".data⟩)
    ∧ ("latest".data.contains ':') = false :=
  ⟨(C7_image_dir_verbatim_reference "base".data
      ⟨"localhost".data, some 5000, "test_repo".data, "latest".data⟩).mpr (by decide),
   by decide⟩

/-- C7 counterexample: a fully valid `ImageName` with a digest-typed
reference, on which `image_dir` is NOT `base/<as_path>` (the claim asserts
equality for every `ImageName`). -/
theorem C7_counterexample :
    (nameNew "jitesoft/alpine".data = some "jitesoft/alpine".data
      ∧ referenceNew ("sha256:" ++ String.mk (List.replicate 64 'a')).data
          = some ("sha256:" ++ String.mk (List.replicate 64 'a')).data)
    ∧ imageDir "base".data
        ⟨"quay.io".data, none, "jitesoft/alpine".data,
          ("sha256:" ++ String.mk (List.replicate 64 'a')).data⟩
      ≠ pjoin "base".data
          (ImageNameT.asPath
            ⟨"quay.io".data, none, "jitesoft/alpine".data,
              ("sha256:" ++ String.mk (List.replicate 64 'a')).data⟩) := by
  decide

/-- The digest grammar exactly as the claim states it (spec-side definition,
for comparison with `Digest::new` from the source): `<algorithm>:<encoded>`
with exactly one colon, a lowercase algorithm of `[+._-]`-separated
components, and `encoded` matching `[a-zA-Z0-9=_-]+` in its entirety. -/
def specDigestGrammar (s : List Char) : Bool :=
  match s.splitOn ':' with
  | [alg, enc] => algOk alg && !enc.isEmpty && enc.all isEncodedChar
  | _ => false

/-- C9: `Digest::new` accepts `"ABC:!!a"`, which violates the documented
grammar on both sides of the colon (uppercase algorithm, `!` in the encoded
part): `ENCODED_RE.is_match` is substring search with an unanchored regex,
and the algorithm half is never checked. -/
theorem C9_digest_new_accepts_ungrammatical :
    digestNew "ABC:!!a".data = some ⟨"ABC".data, "!!a".data⟩
    ∧ specDigestGrammar "ABC:!!a".data = false := by
  decide

/-- The image name used for the concrete `OciArchiveBuilder::build` run. -/
def c4Name : ImageNameT :=
  ⟨"localhost".data, some 5000, "test_repo".data, "latest".data⟩

/-- A minimal manifest (empty-JSON config, no layers) for the concrete
build run. -/
def c4Manifest : ManifestT :=
  ⟨2, some mediaTypeImageManifest, none,
   ⟨"application/vnd.oci.empty.v1+json".data,
    "sha256:44136fa355b3678a1146ad16f7e8649e94fb4fc21fe77e8310c060f61caaff8a".data,
    2, none⟩,
   [], none⟩

/-- A fresh `OciArchiveBuilder` (no blobs added yet). -/
def c4Builder : OciArchiveBuilderT := ⟨c4Name, "out.tar".data, []⟩

/-- C4: `OciArchiveBuilder::build` appends the manifest blob and then
`index.json`, whose single manifest descriptor carries the
`org.opencontainers.image.ref.name` annotation — and then closes the tar
WITHOUT writing any `oci-layout` entry: the built archive has exactly the
blob entries and `index.json`, and no entry named `oci-layout`, although
the format documented in the crate (a tar of the OCI image layout, as the
sibling `oci-dir` builder and the legacy tar writer produce) requires one. -/
theorem C4_build_omits_oci_layout :
    (ociArchiveBuild c4Builder c4Manifest).entries.map Prod.fst
      = [(digestFromBufSha256 (strBytes (renderManifest c4Manifest))).asPath,
         "index.json".data]
    ∧ (∀ e ∈ (ociArchiveBuild c4Builder c4Manifest).entries, e.1 ≠ "oci-layout".data)
    ∧ ((ociArchiveBuild c4Builder c4Manifest).entries.getLast?.map Prod.snd).bind
          parseIndexBytes
      = some ⟨2, [⟨mediaTypeImageManifest,
          (digestFromBufSha256 (strBytes (renderManifest c4Manifest))).toStr,
          ((strBytes (renderManifest c4Manifest)).length : Int),
          some [(refNameKey, c4Name.toStr)]⟩]⟩ := by
  refine ⟨by decide, by decide, by decide⟩

/-- Every byte of `beBytes` is below 256. -/
theorem beBytes_lt (k n : Nat) : ∀ x ∈ beBytes k n, x < 256 := by
  induction k generalizing n with
  | zero => simp [beBytes]
  | succ k ih =>
    intro x hx
    simp only [beBytes, List.mem_cons] at hx
    rcases hx with h | h
    · subst h
      exact Nat.mod_lt _ (by omega)
    · exact ih n x h

/-- Every byte of a SHA-256 digest is below 256. -/
theorem sha256_bytes_lt (msg : List Nat) : ∀ x ∈ sha256 msg, x < 256 := by
  unfold sha256
  generalize (chunks64 (sha2Pad msg)).foldl sha2Block sha2H0 = ws
  induction ws with
  | nil => simp
  | cons w ws ih =>
    intro x hx
    simp only [List.foldr_cons, List.mem_append] at hx
    rcases hx with h | h
    · exact beBytes_lt 4 w x h
    · exact ih x h

/-- `hexDigit` of a value below 16 is a lowercase hex character. -/
theorem hexDigit_lower (n : Nat) (h : n < 16) : isLowerHex (hexDigit n) = true := by
  have : ∀ m, m < 16 → isLowerHex (hexDigit m) = true := by decide
  exact this n h

/-- Hex rendering of genuine bytes consists of lowercase hex characters. -/
theorem hexOfBytes_lower (bs : List Nat) (h : ∀ x ∈ bs, x < 256) :
    ∀ c ∈ hexOfBytes bs, isLowerHex c = true := by
  induction bs with
  | nil => simp [hexOfBytes]
  | cons b rest ih =>
    intro c hc
    have hb := h b (List.mem_cons_self b rest)
    simp only [hexOfBytes, List.foldr_cons, List.mem_cons] at hc
    rcases hc with h1 | h1 | h1
    · subst h1
      exact hexDigit_lower _ (by omega)
    · subst h1
      exact hexDigit_lower _ (Nat.mod_lt _ (by omega))
    · exact ih (fun x hx => h x (List.mem_cons_of_mem _ hx)) c h1

/-- `find?` by key ignores a filter that removes only other keys. -/
theorem find_key_filter_ne (l : List (List Char × List Nat)) (p q : List Char)
    (h : p ≠ q) :
    (l.filter (fun e => e.1 != q)).find? (fun e => e.1 == p)
      = l.find? (fun e => e.1 == p) := by
  induction l with
  | nil => rfl
  | cons e rest ih =>
    by_cases hp : e.1 = p
    · have hq : (e.1 != q) = true := by simp [hp, h]
      rw [List.filter_cons, hq, if_pos rfl,
        List.find?_cons_of_pos _ (by simp [hp]),
        List.find?_cons_of_pos _ (by simp [hp])]
    · by_cases hq : e.1 = q
      · have hbf : (e.1 != q) = false := by simp [hq]
        rw [List.filter_cons, hbf, if_neg (by simp), ih,
          List.find?_cons_of_neg _ (by simp [hp])]
      · have hbt : (e.1 != q) = true := by simp [hq]
        rw [List.filter_cons, hbt, if_pos rfl,
          List.find?_cons_of_neg _ (by simp [hp]),
          List.find?_cons_of_neg _ (by simp [hp])]
        exact ih

/-- Reading after a write: the written path returns the new content, other
paths are unaffected. -/
theorem FS.readFile_writeFile (fs : FS) (q : List Char) (c : List Nat) (p : List Char) :
    (fs.writeFile q c).readFile p = if p = q then some c else fs.readFile p := by
  by_cases h : p = q
  · subst h
    simp [FS.writeFile, FS.readFile, List.find?_cons_of_pos]
  · simp only [FS.writeFile, FS.readFile, if_neg h]
    rw [List.find?_cons_of_neg _ (by simpa using Ne.symm h), find_key_filter_ne _ _ _ h]

/-- `create_dir_all` does not change any file. -/
theorem FS.readFile_createDirAll (fs : FS) (d p : List Char) :
    (fs.createDirAll d).readFile p = fs.readFile p := rfl

/-- A blob path never collides with `index.json`. -/
theorem asPath_ne_index (d : DigestT) : d.asPath ≠ "index.json".data := by
  intro h
  have hb : d.asPath.head? = some 'b' := rfl
  rw [h] at hb
  exact absurd hb (by decide)

/-- A blob path never collides with `oci-layout`. -/
theorem asPath_ne_ociLayout (d : DigestT) : d.asPath ≠ "oci-layout".data := by
  intro h
  have hb : d.asPath.head? = some 'b' := rfl
  rw [h] at hb
  exact absurd hb (by decide)

/-- Equal digests of two buffers, as records, force equal hex encodings. -/
theorem digest_eq_of_asPath_eq (x y : List Nat)
    (h : (digestFromBufSha256 x).asPath = (digestFromBufSha256 y).asPath) :
    digestFromBufSha256 x = digestFromBufSha256 y := by
  simp only [digestFromBufSha256, DigestT.asPath] at h
  have h1 := List.append_cancel_left h
  simp only [List.cons.injEq, true_and] at h1
  simp [digestFromBufSha256, h1]

/-- C1: for both builder backends, `add_blob(b)` returns the SHA-256 digest
of `b` rendered as `sha256:<lowercase hex>` together with the byte length of
`b`; and after `build(m)`, `get_blob` at that digest on the resulting image
returns exactly `b`. The two hypotheses rule out SHA-256 collisions in the
model: earlier archive entries at the same blob path hold the same bytes,
and the serialized manifest collides with `b` only if it equals `b`. -/
theorem C1_add_blob_digest_fidelity
    (b : List Nat) (m : ManifestT) (nm : ImageNameT) (p : List Char)
    (prior : List (List Char × List Nat)) (bDir : OciDirBuilderT) (fs : FS)
    (hA : ∀ e ∈ prior, e.1 = (digestFromBufSha256 b).asPath → e.2 = b)
    (hD : digestFromBufSha256 (strBytes (renderManifest m)) = digestFromBufSha256 b →
          strBytes (renderManifest m) = b) :
    (ociArchiveAddBlob ⟨nm, p, prior⟩ b).2.1.toStr
        = "sha256:".data ++ hexOfBytes (sha256 b)
    ∧ (∀ c ∈ hexOfBytes (sha256 b), isLowerHex c = true)
    ∧ (ociArchiveAddBlob ⟨nm, p, prior⟩ b).2.2 = (b.length : Int)
    ∧ (ociArchiveGetBlob
         (ociArchiveBuild (ociArchiveAddBlob ⟨nm, p, prior⟩ b).1 m)
         (digestFromBufSha256 b)).2 = some b
    ∧ (ociDirAddBlob bDir fs b).2.1.toStr = "sha256:".data ++ hexOfBytes (sha256 b)
    ∧ (ociDirAddBlob bDir fs b).2.2 = (b.length : Int)
    ∧ ociDirGetBlob ⟨(ociDirBuild bDir (ociDirAddBlob bDir fs b).1 m).2.2⟩
        (ociDirBuild bDir (ociDirAddBlob bDir fs b).1 m).2.1
        (digestFromBufSha256 b) = some b := by
  refine ⟨rfl, hexOfBytes_lower _ (sha256_bytes_lt b), rfl, ?_, rfl, rfl, ?_⟩
  · -- archive: first matching entry is either a prior duplicate (same bytes
    -- by hA) or the entry just appended; later entries are not reached.
    simp only [ociArchiveGetBlob, ociArchiveGetEntries, ociArchiveRewind,
      ociArchiveBuild, ociArchiveAddBlob, List.drop_zero]
    rw [List.find?_append, List.find?_append, List.find?_append]
    cases hf : prior.find? (fun e => e.1 == (digestFromBufSha256 b).asPath) with
    | some e =>
      have he := List.find?_some hf
      have hm := List.mem_of_find?_eq_some hf
      simp only [beq_iff_eq] at he
      simp [Option.or, hA e hm he]
    | none =>
      rw [List.find?_cons_of_pos _ (by simp)]
      rfl
  · -- oci-dir: the reader finds the blob file, unless the manifest blob
    -- overwrote it, in which case hD makes the contents agree.
    simp only [ociDirBuild, ociDirGetBlob, ociDirAddBlob]
    rw [FS.readFile_writeFile]
    split_ifs with h1
    · exact absurd ((append_cons_inj _ _ _ _).mp h1) (asPath_ne_index _)
    rw [FS.readFile_writeFile]
    split_ifs with h2
    · exact absurd ((append_cons_inj _ _ _ _).mp h2) (asPath_ne_ociLayout _)
    rw [FS.readFile_writeFile]
    split_ifs with h3
    · rw [hD (digest_eq_of_asPath_eq _ _ ((append_cons_inj _ _ _ _).mp h3)).symm]
    · rw [FS.readFile_createDirAll, FS.readFile_writeFile, if_pos rfl]

/-- The image name used for the concrete digest-fidelity run. -/
def c1Name : ImageNameT :=
  ⟨"ghcr.io".data, none, "termoshtt/ocipkg/testing".data, "latest".data⟩

/-- A minimal manifest for the concrete digest-fidelity run. -/
def c1Manifest : ManifestT :=
  ⟨2, none, some "application/vnd.ocipkg.v1.artifact".data,
   ⟨"application/vnd.oci.empty.v1+json".data,
    "sha256:44136fa355b3678a1146ad16f7e8649e94fb4fc21fe77e8310c060f61caaff8a".data,
    2, none⟩,
   [], none⟩

/-- A fresh `OciDirBuilder` for the concrete digest-fidelity run. -/
def c1DirBuilder : OciDirBuilderT := ⟨some c1Name, "oci-dir-out".data, false⟩

/-- C1 witness: both backends, blob `"hello"`, fresh builders; the hypotheses
hold concretely (no prior entries; the manifest digest differs from the blob
digest). -/
theorem C1_add_blob_digest_fidelity_witness :
    (ociArchiveGetBlob
       (ociArchiveBuild
         (ociArchiveAddBlob ⟨c1Name, "out.tar".data, []⟩ (strBytes "hello".data)).1
         c1Manifest)
       (digestFromBufSha256 (strBytes "hello".data))).2 = some (strBytes "hello".data)
    ∧ ociDirGetBlob
        ⟨(ociDirBuild c1DirBuilder
            (ociDirAddBlob c1DirBuilder ⟨[], []⟩ (strBytes "hello".data)).1 c1Manifest).2.2⟩
        (ociDirBuild c1DirBuilder
            (ociDirAddBlob c1DirBuilder ⟨[], []⟩ (strBytes "hello".data)).1 c1Manifest).2.1
        (digestFromBufSha256 (strBytes "hello".data)) = some (strBytes "hello".data) := by
  have h := C1_add_blob_digest_fidelity (strBytes "hello".data) c1Manifest c1Name
    "out.tar".data [] c1DirBuilder ⟨[], []⟩ (by simp) (by decide)
  exact ⟨h.2.2.2.1, h.2.2.2.2.2.2⟩

/-- After `remove_dir_all`, the removed root is no longer a directory. -/
theorem contains_filter_under (l : List (List Char)) (root : List Char) :
    (l.filter (fun d => !pathUnder root d)).contains root = false := by
  induction l with
  | nil => rfl
  | cons d rest ih =>
    rw [List.filter_cons]
    cases hd : pathUnder root d with
    | true =>
      rw [if_neg (by simp)]
      exact ih
    | false =>
      rw [if_pos (by simp), List.contains_cons]
      have hne : (root == d) = false := by
        apply beq_eq_false_iff_ne.mpr
        intro hx
        subst hx
        simp [pathUnder] at hd
      rw [hne, ih]
      rfl

/-- C6: dropping an `OciDirBuilder` whose `is_finished` flag is unset removes
its target directory (neither the directory nor any file under it exists
afterwards); a builder fresh from `new` starts unfinished; `build` sets the
flag, after which drop leaves the filesystem untouched and the directory it
created still exists. -/
theorem C6_builder_drop_cleanup (bd : OciDirBuilderT) (fs : FS)
    (root : List Char) (nm : ImageNameT) (m : ManifestT) :
    (bd.isFinished = false →
      (ociDirBuilderDrop bd fs).dirs.contains bd.ociDirRoot = false
      ∧ ∀ e ∈ (ociDirBuilderDrop bd fs).files, pathUnder bd.ociDirRoot e.1 = false)
    ∧ (bd.isFinished = true → ociDirBuilderDrop bd fs = fs)
    ∧ (∀ b1 fs1, ociDirBuilderNew root nm fs = (some b1, fs1) →
        b1.isFinished = false
        ∧ (ociDirBuild b1 fs1 m).1.isFinished = true
        ∧ ociDirBuilderDrop (ociDirBuild b1 fs1 m).1 (ociDirBuild b1 fs1 m).2.1
            = (ociDirBuild b1 fs1 m).2.1
        ∧ (ociDirBuild b1 fs1 m).2.1.dirs.contains root = true) := by
  refine ⟨?_, ?_, ?_⟩
  · intro hf
    constructor
    · simp only [ociDirBuilderDrop, hf, Bool.not_false, if_pos, FS.removeDirAll]
      exact contains_filter_under _ _
    · intro e he
      simp only [ociDirBuilderDrop, hf, Bool.not_false, if_pos, FS.removeDirAll] at he
      simpa using List.of_mem_filter he
  · intro hf
    simp [ociDirBuilderDrop, hf]
  · intro b1 fs1 h
    by_cases he : fs.existsPath root = true
    · simp [ociDirBuilderNew, he] at h
    · simp only [ociDirBuilderNew, he, Bool.false_eq_true, if_neg, Prod.mk.injEq,
        Option.some.injEq, not_false_eq_true] at h
      obtain ⟨hb, hfs⟩ := h
      subst hb
      subst hfs
      refine ⟨rfl, rfl, rfl, ?_⟩
      simp [ociDirBuild, ociDirAddBlob, FS.writeFile, FS.createDirAll,
        List.contains_cons]

/-- C6 witness: a concrete unfinished builder is cleaned up on drop, and a
concrete `new`/`build` sequence preserves the directory. -/
theorem C6_builder_drop_cleanup_witness :
    ((ociDirBuilderDrop ⟨none, "d".data, false⟩
        ⟨["d".data, "d/blobs".data], [("d/blobs/x".data, [1]), ("y".data, [2])]⟩).dirs.contains
      "d".data = false)
    ∧ (∀ b1 fs1, ociDirBuilderNew "d2".data c1Name ⟨[], []⟩ = (some b1, fs1) →
        (ociDirBuild b1 fs1 c1Manifest).2.1.dirs.contains "d2".data = true) := by
  constructor
  · exact ((C6_builder_drop_cleanup ⟨none, "d".data, false⟩
      ⟨["d".data, "d/blobs".data], [("d/blobs/x".data, [1]), ("y".data, [2])]⟩
      "d".data c1Name c1Manifest).1 rfl).1
  · intro b1 fs1 h
    exact ((C6_builder_drop_cleanup ⟨none, "d".data, false⟩ ⟨[], []⟩
      "d2".data c1Name c1Manifest).2.2 b1 fs1 h).2.2.2

/-- The manifest stored in the two-manifest image. -/
def c3Manifest : ManifestT :=
  ⟨2, some mediaTypeImageManifest, none,
   ⟨"application/vnd.oci.empty.v1+json".data,
    "sha256:44136fa355b3678a1146ad16f7e8649e94fb4fc21fe77e8310c060f61caaff8a".data,
    2, none⟩,
   [], none⟩

/-- The root directory of the two-manifest image. -/
def c3Root : List Char := "img".data

/-- Descriptor of the stored manifest. -/
def c3Desc : DescriptorT :=
  ⟨mediaTypeImageManifest,
   (digestFromBufSha256 (strBytes (renderManifest c3Manifest))).toStr,
   ((strBytes (renderManifest c3Manifest)).length : Int),
   some [(refNameKey, "ghcr.io/multi/img:latest".data)]⟩

/-- An index holding the SAME manifest descriptor twice. -/
def c3Index : IndexT := ⟨2, [c3Desc, c3Desc]⟩

/-- An on-disk `oci-dir` whose `index.json` lists two manifest descriptors,
with the manifest blob present. -/
def c3FS : FS :=
  ⟨[c3Root],
   [(pjoin c3Root "index.json".data, strBytes (renderIndex c3Index)),
    (pjoin c3Root "oci-layout".data, strBytes ociLayoutContents),
    (pjoin c3Root (digestFromBufSha256 (strBytes (renderManifest c3Manifest))).asPath,
     strBytes (renderManifest c3Manifest))]⟩

/-- C3 counterexample: a well-formed `oci-dir` whose index lists two manifest
descriptors. `get_name` errors, but `get_manifest` SUCCEEDS (it reads the
first descriptor without ever checking the count), and the analogous
`oci-archive` behaves identically — refuting the claim that `get_manifest`
also returns an error. -/
theorem C3_counterexample :
    ociDirNew c3Root c3FS = some ⟨c3Root⟩
    ∧ ociDirGetIndex ⟨c3Root⟩ c3FS = some c3Index
    ∧ 1 < c3Index.manifests.length
    ∧ ociDirGetName ⟨c3Root⟩ c3FS = none
    ∧ ociDirGetManifest ⟨c3Root⟩ c3FS = some c3Manifest
    ∧ (ociArchiveGetManifest
        ⟨[("index.json".data, strBytes (renderIndex c3Index)),
          ((digestFromBufSha256 (strBytes (renderManifest c3Manifest))).asPath,
           strBytes (renderManifest c3Manifest))], 0⟩).2 = some c3Manifest := by
  refine ⟨by decide, by decide, by decide, by decide, by decide, by decide⟩

/-- C3 (amended): on an index holding more than one manifest descriptor,
`get_name` returns an error on both reader backends (via
`get_name_from_index`'s count check), while `get_manifest` performs no count
check: it reads through the FIRST descriptor of the index, succeeding
whenever that descriptor's digest parses and resolves to a manifest blob. -/
theorem C3_multi_manifest_get_name_errors (index : IndexT)
    (hlen : 1 < index.manifests.length) :
    getNameFromIndex index = none
    ∧ (∀ (d : OciDirT) (fs : FS), ociDirGetIndex d fs = some index →
        ociDirGetName d fs = none
        ∧ ociDirGetManifest d fs
            = (match index.manifests.head? with
               | none => none
               | some desc =>
                 match digestNew desc.digest with
                 | none => none
                 | some dg => (ociDirGetBlob d fs dg).bind parseManifestBytes))
    ∧ (∀ (a : OciArchiveT), (ociArchiveGetIndex a).2 = some index →
        (ociArchiveGetName a).2 = none
        ∧ (ociArchiveGetManifest a).2
            = (match index.manifests.head? with
               | none => none
               | some desc =>
                 match digestNew desc.digest with
                 | none => none
                 | some dg => (ociArchiveGetBlob (ociArchiveGetIndex a).1 dg).2.bind
                     parseManifestBytes)) := by
  have hname : getNameFromIndex index = none := by
    rw [getNameFromIndex, if_pos (by omega)]
  refine ⟨hname, ?_, ?_⟩
  · intro d fs hIdx
    constructor
    · rw [ociDirGetName, hIdx]
      exact hname
    · simp only [ociDirGetManifest, hIdx]
  · intro a hIdx
    rcases hE : ociArchiveGetIndex a with ⟨a1, idx?⟩
    rw [hE] at hIdx
    have hIdx2 : idx? = some index := hIdx
    subst hIdx2
    constructor
    · simp only [ociArchiveGetName, hE]
      simpa using hname
    · simp only [ociArchiveGetManifest, hE]
      cases hh : index.manifests.head? with
      | none => simp [hh]
      | some desc =>
        cases hd : digestNew desc.digest with
        | none => simp [hd]
        | some dg => simp [hd]

/-- C3 witness: the amended theorem applied to the concrete two-manifest
image (both hypotheses discharged by evaluation). -/
theorem C3_multi_manifest_get_name_errors_witness :
    ociDirGetName ⟨c3Root⟩ c3FS = none
    ∧ ociDirGetManifest ⟨c3Root⟩ c3FS
        = (match c3Index.manifests.head? with
           | none => none
           | some desc =>
             match digestNew desc.digest with
             | none => none
             | some dg => (ociDirGetBlob ⟨c3Root⟩ c3FS dg).bind parseManifestBytes) := by
  have h := (C3_multi_manifest_get_name_errors c3Index (by decide)).2.1
    ⟨c3Root⟩ c3FS (by decide)
  exact h

/-- If some layer of the list has its blob present but a mismatching
recomputed digest or size, the layer loop of `copy` ends in an error. -/
theorem copyLayers_mismatch {β ι : Type} (ops : BuilderOps β ι)
    (hAdd : ∀ st data, (ops.addBlob st data).2.1 = digestFromBufSha256 data
            ∧ (ops.addBlob st data).2.2 = (data.length : Int))
    (src : SourceImage) (layers : List DescriptorT) (b : β)
    (L : DescriptorT) (hL : L ∈ layers) (bytes : List Nat)
    (hb : sourceGetBlob src L.digest = some bytes)
    (hm : (digestFromBufSha256 bytes).toStr ≠ L.digest ∨ (bytes.length : Int) ≠ L.size) :
    (copyLayers ops src layers b).2 = none := by
  induction layers generalizing b with
  | nil => cases hL
  | cons L0 rest ih =>
    simp only [copyLayers]
    cases hblob : sourceGetBlob src L0.digest with
    | none => rfl
    | some blob0 =>
      rcases hAB : ops.addBlob b blob0 with ⟨b1, dNew, size⟩
      have hdNew : dNew = digestFromBufSha256 blob0 := by
        have h1 := (hAdd b blob0).1
        rw [hAB] at h1
        exact h1
      have hsize : size = (blob0.length : Int) := by
        have h2 := (hAdd b blob0).2
        rw [hAB] at h2
        exact h2
      subst hdNew
      subst hsize
      simp only [hAB]
      rcases List.mem_cons.mp hL with hL0 | hLrest
      · subst hL0
        rw [hblob] at hb
        obtain rfl : blob0 = bytes := by injection hb
        rcases hm with hm | hm
        · rw [if_pos hm]
        · by_cases hd : (digestFromBufSha256 blob0).toStr ≠ L.digest
          · rw [if_pos hd]
          · rw [if_neg hd, if_pos hm]
      · by_cases hd : (digestFromBufSha256 blob0).toStr ≠ L0.digest
        · rw [if_pos hd]
        · rw [if_neg hd]
          by_cases hs : ((blob0.length : Int)) ≠ L0.size
          · rw [if_pos hs]
          · rw [if_neg hs]
            simpa using ih b1 hLrest

/-- When the layer loop of `copy` succeeds, it fetched exactly the layer
digests in manifest order. -/
theorem copyLayers_ok {β ι : Type} (ops : BuilderOps β ι) (src : SourceImage)
    (layers : List DescriptorT) (b : β) (tr : List (List Char)) (b' : β)
    (h : copyLayers ops src layers b = (tr, some b')) :
    tr = layers.map DescriptorT.digest := by
  induction layers generalizing b tr b' with
  | nil =>
    simp only [copyLayers, Prod.mk.injEq] at h
    simp [← h.1]
  | cons L0 rest ih =>
    simp only [copyLayers] at h
    cases hblob : sourceGetBlob src L0.digest with
    | none =>
      rw [hblob] at h
      simp at h
    | some blob0 =>
      rw [hblob] at h
      rcases hAB : ops.addBlob b blob0 with ⟨b1, dNew, size⟩
      simp only [hAB] at h
      by_cases hd : dNew.toStr ≠ L0.digest
      · rw [if_pos hd] at h
        simp at h
      · rw [if_neg hd] at h
        by_cases hs : size ≠ L0.size
        · rw [if_pos hs] at h
          simp at h
        · rw [if_neg hs] at h
          rcases hrec : copyLayers ops src rest b1 with ⟨tr1, r1⟩
          rw [hrec] at h
          simp only [Prod.mk.injEq] at h
          cases r1 with
          | none => simp at h
          | some bb =>
            obtain ⟨h1, h2⟩ := h
            rw [← h1, List.map_cons, ih b1 tr1 bb hrec]

/-- C2: for every source image and destination builder whose `add_blob`
computes the SHA-256 digest and byte length of its input (both backends do),
`copy` fetches the layer blobs in manifest order and then the config blob;
it fails without ever calling `build` whenever any fetched blob's recomputed
digest or byte size differs from the source descriptor; and on success it
calls `build` with the unchanged source manifest, so every descriptor of the
resulting image equals the corresponding source descriptor. -/
theorem C2_copy_preserves_descriptors {β ι : Type} (ops : BuilderOps β ι)
    (src : SourceImage) (dest : β)
    (hAdd : ∀ st data, (ops.addBlob st data).2.1 = digestFromBufSha256 data
            ∧ (ops.addBlob st data).2.2 = (data.length : Int)) :
    (∀ b2 img mBuilt, (copyRun ops src dest).result = some (b2, img, mBuilt) →
        src.manifest = some mBuilt
        ∧ (copyRun ops src dest).fetched
            = mBuilt.layers.map DescriptorT.digest ++ [mBuilt.config.digest])
    ∧ (∀ m, src.manifest = some m →
        (∃ L ∈ m.config :: m.layers, ∃ bytes,
            sourceGetBlob src L.digest = some bytes
            ∧ ((digestFromBufSha256 bytes).toStr ≠ L.digest
               ∨ (bytes.length : Int) ≠ L.size)) →
        (copyRun ops src dest).result = none) := by
  constructor
  · intro b2 img mBuilt hres
    cases hn : src.name with
    | none => simp only [copyRun, hn] at hres; cases hres
    | some nm =>
      cases hman : src.manifest with
      | none => simp only [copyRun, hn, hman] at hres; cases hres
      | some m =>
        simp only [copyRun, hn, hman] at hres ⊢
        rcases hcl : copyLayers ops src m.layers dest with ⟨tr, r⟩
        simp only [hcl] at hres ⊢
        cases r with
        | none => cases hres
        | some b1 =>
          cases hcfg : sourceGetBlob src m.config.digest with
          | none => simp only [hcfg] at hres; cases hres
          | some cbytes =>
            simp only [hcfg] at hres ⊢
            rcases hAB : ops.addBlob b1 cbytes with ⟨b3, dNew, size⟩
            simp only [hAB] at hres ⊢
            by_cases hd : dNew.toStr ≠ m.config.digest
            · rw [if_pos hd] at hres; cases hres
            · rw [if_neg hd] at hres ⊢
              by_cases hs : size ≠ m.config.size
              · rw [if_pos hs] at hres; cases hres
              · rw [if_neg hs] at hres ⊢
                rcases hB : ops.build b3 m with ⟨b4, img0⟩
                simp only [hB] at hres ⊢
                injection hres with htrip
                have hmB : m = mBuilt := congrArg (fun t => t.2.2) htrip
                subst hmB
                refine ⟨rfl, ?_⟩
                rw [copyLayers_ok ops src m.layers dest tr b1 hcl]
  · intro m hman hex
    cases hn : src.name with
    | none => simp [copyRun, hn]
    | some nm =>
      simp only [copyRun, hn, hman]
      rcases hex with ⟨L, hLmem, bytes, hblob, hmis⟩
      rcases List.mem_cons.mp hLmem with hLc | hLl
      · rcases hcl : copyLayers ops src m.layers dest with ⟨tr, r⟩
        cases r with
        | none => simp [hcl]
        | some b1 =>
          subst hLc
          simp only [hcl, hblob]
          rcases hAB : ops.addBlob b1 bytes with ⟨b3, dNew, size⟩
          have hdNew : dNew = digestFromBufSha256 bytes := by
            have h1 := (hAdd b1 bytes).1
            rw [hAB] at h1
            exact h1
          have hsize : size = (bytes.length : Int) := by
            have h2 := (hAdd b1 bytes).2
            rw [hAB] at h2
            exact h2
          subst hdNew
          subst hsize
          simp only [hAB]
          rcases hmis with hm1 | hm1
          · rw [if_pos hm1]
          · by_cases hd : (digestFromBufSha256 bytes).toStr ≠ m.config.digest
            · rw [if_pos hd]
            · rw [if_neg hd, if_pos hm1]
      · have hnone := copyLayers_mismatch ops hAdd src m.layers dest L hLl bytes hblob hmis
        rcases hcl : copyLayers ops src m.layers dest with ⟨tr, r⟩
        rw [hcl] at hnone
        have hr : r = none := hnone
        subst hr
        simp [hcl]

/-- The image name of the concrete copy run. -/
def c2Name : ImageNameT := ⟨"localhost".data, some 5000, "copysrc".data, "v1".data⟩

/-- The layer blob of the concrete copy run. -/
def c2LayerBytes : List Nat := strBytes "layer-data".data

/-- The config blob of the concrete copy run. -/
def c2ConfigBytes : List Nat := strBytes "cfg".data

/-- The source manifest of the concrete copy run (descriptors consistent
with the blobs). -/
def c2SrcManifest : ManifestT :=
  ⟨2, none, some "application/vnd.ocipkg.v1.artifact".data,
   ⟨"application/vnd.ocipkg.v1.config+json".data,
    (digestFromBufSha256 c2ConfigBytes).toStr, (c2ConfigBytes.length : Int), none⟩,
   [⟨"application/vnd.ocipkg.v1.layer.tar+gzip".data,
     (digestFromBufSha256 c2LayerBytes).toStr, (c2LayerBytes.length : Int), none⟩],
   none⟩

/-- The consistent concrete source image. -/
def c2Src : SourceImage :=
  ⟨some c2Name, some c2SrcManifest,
   [((digestFromBufSha256 c2LayerBytes).toStr, c2LayerBytes),
    ((digestFromBufSha256 c2ConfigBytes).toStr, c2ConfigBytes)]⟩

/-- A corrupted manifest: the layer descriptor reports a wrong size. -/
def c2BadManifest : ManifestT :=
  ⟨2, none, some "application/vnd.ocipkg.v1.artifact".data,
   ⟨"application/vnd.ocipkg.v1.config+json".data,
    (digestFromBufSha256 c2ConfigBytes).toStr, (c2ConfigBytes.length : Int), none⟩,
   [⟨"application/vnd.ocipkg.v1.layer.tar+gzip".data,
     (digestFromBufSha256 c2LayerBytes).toStr, 999, none⟩],
   none⟩

/-- The corrupted concrete source image. -/
def c2BadSrc : SourceImage :=
  ⟨some c2Name, some c2BadManifest,
   [((digestFromBufSha256 c2LayerBytes).toStr, c2LayerBytes),
    ((digestFromBufSha256 c2ConfigBytes).toStr, c2ConfigBytes)]⟩

/-- The destination builder of the concrete copy run. -/
def c2Dest : OciArchiveBuilderT := ⟨c2Name, "copy.tar".data, []⟩

/-- C2 witness: on the consistent source the concrete copy fetched the layer
digest then the config digest and built with the unchanged manifest; on the
size-corrupted source it failed without calling `build`. -/
theorem C2_copy_preserves_descriptors_witness :
    c2Src.manifest = some c2SrcManifest
    ∧ (copyRun ociArchiveOps c2Src c2Dest).fetched
        = c2SrcManifest.layers.map DescriptorT.digest ++ [c2SrcManifest.config.digest]
    ∧ (copyRun ociArchiveOps c2BadSrc c2Dest).result = none := by
  have hAdd : ∀ (st : OciArchiveBuilderT) (data : List Nat),
      (ociArchiveOps.addBlob st data).2.1 = digestFromBufSha256 data
      ∧ (ociArchiveOps.addBlob st data).2.2 = (data.length : Int) :=
    fun st data => ⟨rfl, rfl⟩
  have hIs : (copyRun ociArchiveOps c2Src c2Dest).result.isSome = true := by decide
  have hres := (Option.some_get hIs).symm
  obtain ⟨h1, h2⟩ := (C2_copy_preserves_descriptors ociArchiveOps c2Src c2Dest hAdd).1
    ((copyRun ociArchiveOps c2Src c2Dest).result.get hIs).1
    ((copyRun ociArchiveOps c2Src c2Dest).result.get hIs).2.1
    ((copyRun ociArchiveOps c2Src c2Dest).result.get hIs).2.2
    hres
  have h1' : some c2SrcManifest
      = some ((copyRun ociArchiveOps c2Src c2Dest).result.get hIs).2.2 := h1
  have hmB := Option.some.inj h1'
  refine ⟨rfl, ?_, ?_⟩
  · rw [h2, ← hmB]
  · exact (C2_copy_preserves_descriptors ociArchiveOps c2BadSrc c2Dest hAdd).2
      c2BadManifest rfl
      ⟨⟨"application/vnd.ocipkg.v1.layer.tar+gzip".data,
        (digestFromBufSha256 c2LayerBytes).toStr, 999, none⟩,
       by decide, c2LayerBytes, by decide, Or.inr (by decide)⟩

/-! ### Round trip of `as_path` and `from_path` -/

/-- The colon encoder produces the empty string only on the empty string. -/
theorem replaceColon_eq_nil {s : List Char} (h : replaceColon s = []) : s = [] := by
  cases s with
  | nil => rfl
  | cons c rest =>
    by_cases hc : c = ':' <;> simp [replaceColon, hc] at h

/-- If the colon-encoded string starts with an underscore, the original
started with a colon or an underscore. -/
theorem replaceColon_head_uu {s : List Char} (h : (replaceColon s).head? = some '_') :
    s.head? = some ':' ∨ s.head? = some '_' := by
  cases s with
  | nil => simp [replaceColon] at h
  | cons c rest =>
    by_cases hc : c = ':'
    · left; rw [hc]; rfl
    · right
      simp [replaceColon, hc] at h
      simp [h]

/-- Decoding inverts encoding: `replace("__", ":")` after `replace(':', "__")`
is the identity on strings containing neither `__` nor `_:`. -/
theorem replaceUU_replaceColon (r : List Char) (h1 : hasUU r = false)
    (h2 : hasUC r = false) : replaceUU (replaceColon r) = r := by
  induction r with
  | nil => rfl
  | cons c rest ih =>
    have h1r : hasUU rest = false := by
      simp only [hasUU, Bool.or_eq_false_iff] at h1; exact h1.2
    have h2r : hasUC rest = false := by
      simp only [hasUC, Bool.or_eq_false_iff] at h2; exact h2.2
    by_cases hc : c = ':'
    · subst hc
      simp [replaceColon, replaceUU, ih h1r h2r]
    · cases hrc : replaceColon rest with
      | nil =>
        have hr : rest = [] := replaceColon_eq_nil hrc
        subst hr
        simp [replaceUU, replaceColon, hc]
      | cons d X =>
        have hnd : ¬(c = '_' ∧ d = '_') := by
          rintro ⟨hcu, hdu⟩
          have hh : (replaceColon rest).head? = some '_' := by rw [hrc, hdu]; rfl
          rcases replaceColon_head_uu hh with hcol | hund
          · have ht : hasUC (c :: rest) = true := by simp [hasUC, hcu, hcol]
            rw [ht] at h2; exact Bool.noConfusion h2
          · have ht : hasUU (c :: rest) = true := by simp [hasUU, hcu, hund]
            rw [ht] at h1; exact Bool.noConfusion h1
        simp only [replaceColon, if_neg hc, hrc, replaceUU, if_neg hnd]
        rw [← hrc, ih h1r h2r]

/-- Splitting `xs ++ sep :: as` on `sep` peels off `xs` when `sep` does not
occur in `xs`. -/
theorem splitOn_first_of_not_mem (xs : List Char) (sep : Char) (h : sep ∉ xs)
    (as : List Char) : (xs ++ sep :: as).splitOn sep = xs :: as.splitOn sep := by
  simp only [List.splitOn]
  exact List.splitOnP_first (· == sep) xs
    (fun x hx hbe => h (by rw [eq_of_beq hbe] at hx; exact hx)) sep
    (beq_self_eq_true sep) as

/-- Splitting `xs ++ sep :: tl` on `sep` ends with the piece `tl` when `sep`
does not occur in `tl`. -/
theorem splitOn_concat_of_not_mem (sep : Char) (tl : List Char) (h : sep ∉ tl) :
    ∀ xs : List Char, (xs ++ sep :: tl).splitOn sep = xs.splitOn sep ++ [tl] := by
  intro xs
  induction xs with
  | nil =>
    simp only [List.nil_append, List.splitOn, List.splitOnP_cons, beq_self_eq_true, if_true]
    rw [List.splitOnP_eq_single (· == sep) tl
      (fun x hx hbe => h (by rw [eq_of_beq hbe] at hx; exact hx))]
    rfl
  | cons c cs ih =>
    simp only [List.splitOn] at ih
    simp only [List.cons_append, List.splitOn, List.splitOnP_cons]
    by_cases hcs : (c == sep) = true
    · rw [if_pos hcs, if_pos hcs, ih]
      rfl
    · rw [if_neg hcs, if_neg hcs, ih]
      rcases List.exists_cons_of_ne_nil (List.splitOnP_ne_nil (· == sep) cs) with ⟨g, gs, hg⟩
      rw [hg]
      rfl

/-- `split("__")` of a string without `__` is the single whole string. -/
theorem splitUU_of_no_uu : ∀ s : List Char, hasUU s = false → splitUU s = [s]
  | [], _ => rfl
  | [c], _ => rfl
  | c :: d :: rest, h => by
    have hnd : ¬(c = '_' ∧ d = '_') := by
      rintro ⟨hc, hd⟩
      simp [hasUU, hc, hd] at h
    have ht : hasUU (d :: rest) = false := by
      simp only [hasUU, Bool.or_eq_false_iff] at h ⊢; exact h.2
    simp only [splitUU, if_neg hnd, splitUU_of_no_uu (d :: rest) ht]

/-- `split("__")` of `a ++ "__" ++ b` starts with the piece `a` when `a`
contains no `__` and does not end in `_`. -/
theorem splitUU_append_uu (b : List Char) :
    ∀ a : List Char, hasUU a = false → a.getLast? ≠ some '_' →
      splitUU (a ++ '_' :: '_' :: b) = a :: splitUU b
  | [], _, _ => by simp [splitUU]
  | [c], _, hl => by
    have hc : c ≠ '_' := by
      intro hc; exact hl (by rw [List.getLast?_singleton, hc])
    simp [splitUU, hc]
  | c :: d :: a, h, hl => by
    have hnd : ¬(c = '_' ∧ d = '_') := by
      rintro ⟨h1, h2⟩; simp [hasUU, h1, h2] at h
    have ht : hasUU (d :: a) = false := by
      simp only [hasUU, Bool.or_eq_false_iff] at h ⊢; exact h.2
    have hlt : (d :: a).getLast? ≠ some '_' := by
      rwa [List.getLast?_cons_cons] at hl
    have hIH : splitUU (d :: (a ++ '_' :: '_' :: b)) = (d :: a) :: splitUU b := by
      rw [← List.cons_append]; exact splitUU_append_uu b (d :: a) ht hlt
    rw [show (c :: d :: a) ++ '_' :: '_' :: b = c :: d :: (a ++ '_' :: '_' :: b) from rfl]
    rw [show splitUU (c :: d :: (a ++ '_' :: '_' :: b))
        = if c = '_' ∧ d = '_' then [] :: splitUU (a ++ '_' :: '_' :: b)
          else match splitUU (d :: (a ++ '_' :: '_' :: b)) with
               | g :: gs => (c :: g) :: gs
               | [] => [[c]] from rfl]
    rw [if_neg hnd, hIH]

/-- The ten decimal digit characters are decimal and carry their value. -/
theorem isDec_digit_char :
    ∀ k < 10, isDec (Char.ofNat (48 + k)) = true
      ∧ decDigitVal (Char.ofNat (48 + k)) = k := by decide

/-- A decimal digit character is not an underscore, slash or plus sign. -/
theorem isDec_no_special (c : Char) (h : isDec c = true) :
    c ≠ '_' ∧ c ≠ '/' ∧ c ≠ '+' := by
  refine ⟨fun hc => ?_, fun hc => ?_, fun hc => ?_⟩ <;>
    (subst hc; exact absurd h (by decide))

/-- Every character rendered by the decimal printer is a decimal digit. -/
theorem natDecGo_all_dec : ∀ fuel n : Nat, (natDecGo fuel n).all isDec = true
  | 0, _ => rfl
  | fuel + 1, n => by
    by_cases hn : n = 0
    · simp [natDecGo, hn]
    · simp only [natDecGo, if_neg hn, List.all_append, natDecGo_all_dec fuel (n / 10),
        List.all_cons, List.all_nil, Bool.and_true, Bool.true_and]
      exact (isDec_digit_char (n % 10) (Nat.mod_lt _ (by norm_num))).1

/-- One step of the base-10 fold. -/
theorem decVal_concat (s : List Char) (c : Char) :
    decVal (s ++ [c]) = 10 * decVal s + decDigitVal c := by
  simp [decVal, List.foldl_append]

/-- The decimal printer and the base-10 fold are inverse (fuelled form). -/
theorem natDecGo_val : ∀ fuel n : Nat, n ≤ fuel → decVal (natDecGo fuel n) = n
  | 0, n, h => by
    have hn : n = 0 := Nat.le_zero.mp h
    simp [natDecGo, hn, decVal]
  | fuel + 1, n, h => by
    by_cases hn : n = 0
    · simp [natDecGo, hn, decVal]
    · have hdiv : n / 10 ≤ fuel := by
        have h1 : n / 10 < n := Nat.div_lt_self (Nat.pos_of_ne_zero hn) (by norm_num)
        omega
      rw [show natDecGo (fuel + 1) n
          = if n = 0 then [] else natDecGo fuel (n / 10) ++ [Char.ofNat (48 + n % 10)]
          from rfl]
      rw [if_neg hn, decVal_concat, natDecGo_val fuel (n / 10) hdiv,
        (isDec_digit_char (n % 10) (Nat.mod_lt _ (by norm_num))).2]
      omega

/-- `format!("\x7b\x7d", n)` renders nonempty decimal digits whose base-10
value is `n`. -/
theorem natToDec_spec (p : Nat) :
    (natToDec p).all isDec = true ∧ decVal (natToDec p) = p ∧ natToDec p ≠ [] := by
  by_cases hp : p = 0
  · subst hp; exact ⟨by decide, by decide, by decide⟩
  · simp only [natToDec, if_neg hp]
    refine ⟨natDecGo_all_dec _ _, natDecGo_val _ _ (Nat.le_succ p), ?_⟩
    rw [show natDecGo (p + 1) p
        = if p = 0 then [] else natDecGo p (p / 10) ++ [Char.ofNat (48 + p % 10)]
        from rfl]
    rw [if_neg hp]
    exact List.append_ne_nil_of_right_ne_nil _ (by simp)

/-- `str::parse::<u16>` accepts a nonempty all-digits string below `2^16`
and returns its value. -/
theorem parseU16_eval (s : List Char) (hne : s ≠ []) (hall : s.all isDec = true)
    (hlt : decVal s < 65536) : parseU16 s = some (decVal s) := by
  rcases List.exists_cons_of_ne_nil hne with ⟨c, rest, rfl⟩
  have hc : isDec c = true := by
    rw [List.all_cons, Bool.and_eq_true] at hall; exact hall.1
  have hcp : c ≠ '+' := (isDec_no_special c hc).2.2
  simp only [parseU16]
  have hM : (match c :: rest with
      | '+' :: t => t
      | x => c :: rest) = c :: rest := by
    split
    · next t heq => injection heq with h1 h2; exact absurd h1 hcp
    · rfl
  rw [hM]
  simp [hall, hlt]

/-- A string with no underscore at all contains no `__`. -/
theorem hasUU_of_forall_ne (s : List Char) (h : ∀ c ∈ s, c ≠ '_') :
    hasUU s = false := by
  induction s with
  | nil => rfl
  | cons c rest ih =>
    simp only [hasUU, Bool.or_eq_false_iff]
    refine ⟨?_, ih (fun x hx => h x (List.mem_cons_of_mem c hx))⟩
    have hc : c ≠ '_' := h c (List.mem_cons_self c rest)
    simp [beq_eq_false_iff_ne.mpr hc]

/-- All-digits strings contain no underscore. -/
theorem no_underscore_of_all_dec (s : List Char) (h : s.all isDec = true) :
    ∀ c ∈ s, c ≠ '_' :=
  fun c hc => (isDec_no_special c (List.all_eq_true.mp h c hc)).1

/-- All-digits strings contain no slash. -/
theorem slash_not_mem_of_all_dec (s : List Char) (h : s.all isDec = true) :
    '/' ∉ s :=
  fun hm => absurd ((isDec_no_special '/' (List.all_eq_true.mp h _ hm)).2.1) (fun hne => hne rfl)

/-- The colon encoder never introduces a slash. -/
theorem slash_not_mem_replaceColon (r : List Char) (h : '/' ∉ r) :
    '/' ∉ replaceColon r := by
  induction r with
  | nil => simp [replaceColon]
  | cons c rest ih =>
    simp only [List.mem_cons, not_or] at h
    by_cases hc : c = ':'
    · simp only [replaceColon, if_pos hc, List.mem_cons, not_or]
      exact ⟨by decide, by decide, ih h.2⟩
    · simp only [replaceColon, if_neg hc, List.mem_cons, not_or]
      exact ⟨h.1, ih h.2⟩

/-- C5 (amended): `ImageName::from_path` inverts `ImageName::as_path` for
every `ImageName` whose hostname is nonempty, contains no `/` and no `__`
(and, when a port is present, the port is a valid `u16` and the hostname
does not end in `_`), whose name and reference are accepted verbatim by
their validators, and whose reference contains no `/`, no `__` and no `_:`
(for references accepted by `Reference::new` only the `__` condition is a
real restriction). The original unqualified round-trip claim is refuted by
`C5_counterexample`. -/
theorem C5_round_trip_uu_free (n : ImageNameT)
    (hHostNe : n.hostname ≠ [])
    (hHostSlash : '/' ∉ n.hostname)
    (hHostUU : hasUU n.hostname = false)
    (hPort : ∀ p, n.port = some p → p < 65536 ∧ n.hostname.getLast? ≠ some '_')
    (hName : nameNew n.name = some n.name)
    (hRef : referenceNew n.reference = some n.reference)
    (hRefSlash : '/' ∉ n.reference)
    (hRefUU : hasUU n.reference = false)
    (hRefUC : hasUC n.reference = false) :
    imageNameFromPath n.asPath = some n := by
  obtain ⟨host, port, nm, ref⟩ := n
  simp only at hHostNe hHostSlash hHostUU hPort hName hRef hRefSlash hRefUU hRefUC
  have hLs : '/' ∉ ('_' :: '_' :: replaceColon ref) := by
    simp only [List.mem_cons, not_or]
    exact ⟨by decide, by decide, slash_not_mem_replaceColon ref hRefSlash⟩
  have hnameSplit : nm.splitOn '/' ≠ [] := by
    simp only [List.splitOn]; exact List.splitOnP_ne_nil _ _
  have hRUC : replaceUU (replaceColon ref) = ref := replaceUU_replaceColon ref hRefUU hRefUC
  cases port with
  | none =>
    have hpath : (ImageNameT.mk host none nm ref).asPath
        = host ++ '/' :: (nm ++ '/' :: ('_' :: '_' :: replaceColon ref)) := by
      simp [ImageNameT.asPath]
    have hcomps : (ImageNameT.mk host none nm ref).asPath.splitOn '/'
        = host :: (nm.splitOn '/' ++ ['_' :: '_' :: replaceColon ref]) := by
      rw [hpath, splitOn_first_of_not_mem host '/' hHostSlash,
        splitOn_concat_of_not_mem '/' _ hLs]
    have h3 : ¬ (host :: (nm.splitOn '/' ++ ['_' :: '_' :: replaceColon ref])).length < 3 := by
      have hpos := List.length_pos.mpr hnameSplit
      simp only [List.length_cons, List.length_append, List.length_nil]
      omega
    have hsplit : splitUU host = [host] := splitUU_of_no_uu host hHostUU
    simp only [imageNameFromPath, hcomps, h3, if_false, hsplit, List.head?_cons,
      List.get?_cons_succ, List.get?_nil, List.dropLast_concat, List.getLast?_concat,
      List.intercalate_splitOn, hName, hRUC, hRef]
  | some p =>
    obtain ⟨hp, hL⟩ := hPort p rfl
    obtain ⟨hallD, hvalD, hneD⟩ := natToDec_spec p
    have hparse : parseU16 (natToDec p) = some p := by
      rw [parseU16_eval (natToDec p) hneD hallD (by rw [hvalD]; exact hp), hvalD]
    have hRegSlash : '/' ∉ host ++ '_' :: '_' :: natToDec p := by
      simp only [List.mem_append, List.mem_cons, not_or]
      exact ⟨hHostSlash, by decide, by decide, slash_not_mem_of_all_dec _ hallD⟩
    have hpath : (ImageNameT.mk host (some p) nm ref).asPath
        = (host ++ '_' :: '_' :: natToDec p)
            ++ '/' :: (nm ++ '/' :: ('_' :: '_' :: replaceColon ref)) := by
      simp [ImageNameT.asPath]
    have hcomps : (ImageNameT.mk host (some p) nm ref).asPath.splitOn '/'
        = (host ++ '_' :: '_' :: natToDec p)
            :: (nm.splitOn '/' ++ ['_' :: '_' :: replaceColon ref]) := by
      rw [hpath, splitOn_first_of_not_mem _ '/' hRegSlash,
        splitOn_concat_of_not_mem '/' _ hLs]
    have h3 : ¬ ((host ++ '_' :: '_' :: natToDec p)
        :: (nm.splitOn '/' ++ ['_' :: '_' :: replaceColon ref])).length < 3 := by
      have hpos := List.length_pos.mpr hnameSplit
      simp only [List.length_cons, List.length_append, List.length_nil]
      omega
    have hsplit2 : splitUU (host ++ '_' :: '_' :: natToDec p) = [host, natToDec p] := by
      rw [splitUU_append_uu (natToDec p) host hHostUU hL,
        splitUU_of_no_uu (natToDec p)
          (hasUU_of_forall_ne _ (no_underscore_of_all_dec _ hallD))]
    simp only [imageNameFromPath, hcomps, h3, if_false, hsplit2, List.head?_cons,
      List.get?_cons_succ, List.get?_cons_zero, hparse, List.dropLast_concat,
      List.getLast?_concat, List.intercalate_splitOn, hName, hRUC, hRef]

/-- A concrete image name with port exercising the round trip. -/
def c5Good : ImageNameT :=
  ⟨"localhost".data, some 5000, "my-reg/name".data, "tag1.0".data⟩

/-- C5 witness: the round trip holds on the concrete name
`localhost:5000/my-reg/name:tag1.0`. -/
theorem C5_round_trip_uu_free_witness :
    imageNameFromPath c5Good.asPath = some c5Good :=
  C5_round_trip_uu_free c5Good (by decide) (by decide) (by decide)
    (fun p hp => by injection hp with h; subst h; exact ⟨by decide, by decide⟩)
    (by decide) (by decide) (by decide) (by decide) (by decide)

/-- A valid image name whose tag reference `sha256__` followed by 64 `a`
characters breaks the round trip: `as_path` keeps it verbatim (no colon to
replace), and `from_path` decodes its `__` into `:`, yielding the digest
reference `sha256:aaa...`. -/
def c5Name : ImageNameT :=
  ⟨"localhost".data, none, "n".data, "sha256__".data ++ List.replicate 64 'a'⟩

/-- C5 counterexample: `c5Name` passes the `Name` and `Reference`
validators, yet `from_path (as_path c5Name)` succeeds with a DIFFERENT
reference (`sha256:` followed by 64 `a`), refuting the unqualified
round-trip claim. -/
theorem C5_counterexample :
    nameNew c5Name.name = some c5Name.name
    ∧ referenceNew c5Name.reference = some c5Name.reference
    ∧ imageNameFromPath c5Name.asPath
        = some ⟨"localhost".data, none, "n".data, "sha256:".data ++ List.replicate 64 'a'⟩
    ∧ imageNameFromPath c5Name.asPath ≠ some c5Name :=
  ⟨by decide, by decide, by decide, by decide⟩
